import Mathlib

/-!
Shallow embedding of the `parse-jsonschema` crate (src/src/lib.rs): a
legacy-tolerant JSON Schema data model and its fallible conversion to the
canonical `schemars` schema model, together with theorems about the
conversion (hoisting of the legacy per-property `required` flag, error
propagation and path contexts, order preservation, idempotence).

Rust `Map<String, V>` (insertion-ordered via the `preserve_order` feature)
is modelled as an association list `List (String × V)` with
insert-or-update-in-place; `Set<String>` as a `List String` with
membership-checking insert.  `anyhow::Error` with `.context` chains is
modelled as a nonempty list of strings, outermost context first and the
base message last.  Machine floats in numeric keywords are inert data
(copied through untouched), modelled as `Rat`.
-/

set_option maxHeartbeats 1000000

/-- A JSON value (serde_json::Value), inert data for the conversion. -/
inductive Value where
  | null : Value
  | bool : Bool → Value
  | num : Rat → Value
  | str : String → Value
  | arr : List Value → Value
  | obj : List (String × Value) → Value


/-- schemars::schema::InstanceType. -/
inductive InstanceType where
  | null | boolean | object | array | number | string | integer


/-- schemars::schema::SingleOrVec. -/
inductive SingleOrVec (α : Type) where
  | single : α → SingleOrVec α
  | vec : List α → SingleOrVec α


/-- schemars::schema::Metadata: annotation fields, inert for conversion. -/
structure Metadata where
  id : Option String := none
  title : Option String := none
  description : Option String := none
  default : Option Value := none
  deprecated : Bool := false
  read_only : Bool := false
  write_only : Bool := false
  examples : List Value := []


/-- schemars::schema::NumberValidation, inert for conversion. -/
structure NumberValidation where
  multiple_of : Option Rat := none
  maximum : Option Rat := none
  exclusive_maximum : Option Rat := none
  minimum : Option Rat := none
  exclusive_minimum : Option Rat := none


/-- schemars::schema::StringValidation, inert for conversion. -/
structure StringValidation where
  max_length : Option Nat := none
  min_length : Option Nat := none
  pattern : Option String := none


/-- An `anyhow::Error` with its chain of `.context` wrappers: outermost
context first, base message last.  Always nonempty in this development. -/
abbrev Err := List String

/-- `anyhow::Error::context`: wrap an error with an outer context message. -/
def Err.ctx (c : String) (e : Err) : Err := c :: e

/-- Insert-or-update for an insertion-ordered map (`schemars::Map` with
`preserve_order`): an existing key keeps its position and gets the new
value; a new key is appended. -/
def mapInsert {α : Type} (m : List (String × α)) (k : String) (v : α) :
    List (String × α) :=
  if m.any (fun p => p.1 == k) then
    m.map (fun p => if p.1 == k then (k, v) else p)
  else
    m ++ [(k, v)]

/-- Insert for an insertion-ordered set (`schemars::Set` with
`preserve_order`): no-op when the element is present, append otherwise. -/
def setInsert (s : List String) (k : String) : List String :=
  if s.contains k then s else s ++ [k]

mutual
/-- Legacy-tolerant `Schema` (src/src/lib.rs): a boolean literal or a
schema object. -/
inductive Schema where
  | bool : Bool → Schema
  | obj : SchemaObject → Schema

/-- Legacy-tolerant `SchemaObject` (src/src/lib.rs), field for field,
including the legacy `required : Option Bool` flag. -/
inductive SchemaObject where
  | mk :
      (metadata : Option Metadata) →
      (instance_type : Option (SingleOrVec InstanceType)) →
      (format : Option String) →
      (enum_values : Option (List Value)) →
      (const_value : Option Value) →
      (subschemas : Option SubschemaValidation) →
      (number : Option NumberValidation) →
      (string : Option StringValidation) →
      (array : Option ArrayValidation) →
      (object : Option ObjectValidation) →
      (reference : Option String) →
      (required : Option Bool) →
      (extensions : List (String × Value)) →
      SchemaObject

/-- Legacy-tolerant `SubschemaValidation` (src/src/lib.rs). -/
inductive SubschemaValidation where
  | mk :
      (all_of : Option (List Schema)) →
      (any_of : Option (List Schema)) →
      (one_of : Option (List Schema)) →
      (not : Option Schema) →
      (if_schema : Option Schema) →
      (then_schema : Option Schema) →
      (else_schema : Option Schema) →
      SubschemaValidation

/-- Legacy-tolerant `ArrayValidation` (src/src/lib.rs). -/
inductive ArrayValidation where
  | mk :
      (items : Option (SingleOrVec Schema)) →
      (additional_items : Option Schema) →
      (max_items : Option Nat) →
      (min_items : Option Nat) →
      (unique_items : Option Bool) →
      (contains : Option Schema) →
      ArrayValidation

/-- Legacy-tolerant `ObjectValidation` (src/src/lib.rs). -/
inductive ObjectValidation where
  | mk :
      (max_properties : Option Nat) →
      (min_properties : Option Nat) →
      (required : List String) →
      (properties : List (String × Schema)) →
      (pattern_properties : List (String × Schema)) →
      (additional_properties : Option Schema) →
      (property_names : Option Schema) →
      ObjectValidation
end

namespace Schemars

mutual
/-- Canonical `schemars::schema::Schema`. -/
inductive Schema where
  | bool : Bool → Schema
  | obj : SchemaObject → Schema

/-- Canonical `schemars::schema::SchemaObject`: the same fields as the
legacy object except that the legacy `required` flag does not exist. -/
inductive SchemaObject where
  | mk :
      (metadata : Option Metadata) →
      (instance_type : Option (SingleOrVec InstanceType)) →
      (format : Option String) →
      (enum_values : Option (List Value)) →
      (const_value : Option Value) →
      (subschemas : Option SubschemaValidation) →
      (number : Option NumberValidation) →
      (string : Option StringValidation) →
      (array : Option ArrayValidation) →
      (object : Option ObjectValidation) →
      (reference : Option String) →
      (extensions : List (String × Value)) →
      SchemaObject

/-- Canonical `schemars::schema::SubschemaValidation`. -/
inductive SubschemaValidation where
  | mk :
      (all_of : Option (List Schema)) →
      (any_of : Option (List Schema)) →
      (one_of : Option (List Schema)) →
      (not : Option Schema) →
      (if_schema : Option Schema) →
      (then_schema : Option Schema) →
      (else_schema : Option Schema) →
      SubschemaValidation

/-- Canonical `schemars::schema::ArrayValidation`. -/
inductive ArrayValidation where
  | mk :
      (items : Option (SingleOrVec Schema)) →
      (additional_items : Option Schema) →
      (max_items : Option Nat) →
      (min_items : Option Nat) →
      (unique_items : Option Bool) →
      (contains : Option Schema) →
      ArrayValidation

/-- Canonical `schemars::schema::ObjectValidation`. -/
inductive ObjectValidation where
  | mk :
      (max_properties : Option Nat) →
      (min_properties : Option Nat) →
      (required : List String) →
      (properties : List (String × Schema)) →
      (pattern_properties : List (String × Schema)) →
      (additional_properties : Option Schema) →
      (property_names : Option Schema) →
      ObjectValidation
end

end Schemars

/-- The root object of a JSON Schema document (`RootSchema` in
src/src/lib.rs): the `$schema` keyword, the root schema object (flattened)
and the `definitions` map. -/
structure RootSchema where
  meta_schema : Option String := none
  schema : SchemaObject
  definitions : List (String × Schema) := []

/-- Canonical `schemars::schema::RootSchema`. -/
structure Schemars.RootSchema where
  meta_schema : Option String := none
  schema : Schemars.SchemaObject
  definitions : List (String × Schemars.Schema) := []

/-- Legacy `SchemaObject.required` accessor. -/
def SchemaObject.required : SchemaObject → Option Bool
  | .mk _ _ _ _ _ _ _ _ _ _ _ rq _ => rq

/-- `o.required.take()`: the object with the legacy flag removed. -/
def SchemaObject.stripRequired : SchemaObject → SchemaObject
  | .mk md it fm ev cv ss nu st ar ob rf _ ex =>
      .mk md it fm ev cv ss nu st ar ob rf none ex

/-- `Except` analogue of `anyhow::Context::context`: wrap the error (if
any) of a fallible computation with an outer context message. -/
def ctxE {α : Type} (c : String) : Except Err α → Except Err α
  | .error e => .error (Err.ctx c e)
  | .ok a => .ok a

/-- The `(Vec::new(), Vec::new())` fold used by `sov_try_into`,
`map_vec_schema` (src/src/lib.rs lines 265-274 and 312-322): split a list
of results into the successes and the errors, each in encounter order. -/
def partitionResults {α : Type} : List (Except Err α) → List α × List Err
  | [] => ([], [])
  | .ok a :: rest =>
      let (oks, errs) := partitionResults rest
      (a :: oks, errs)
  | .error e :: rest =>
      let (oks, errs) := partitionResults rest
      (oks, e :: errs)

/-- `for e in errs { return Err(e) }; Ok(us)`: return the first collected
error if there is one, the collected successes otherwise. -/
def foldedResult {α : Type} (p : List α × List Err) : Except Err (List α) :=
  match p.2 with
  | [] => .ok p.1
  | e :: _ => .error e

/-- The effect on the captured `let mut required` of the first `.map` of
`ObjectValidation::try_into` over `properties` (src/src/lib.rs lines
416-431): visit the entries in order and insert each name whose child is
an object carrying `required == true`.  (The Rust closure both mutates
`required` and rewrites the entry; the two effects are independent and
are modelled here as the pair `hoistReq` / `stripProps`.) -/
def hoistReq (req : List String) : List (String × Schema) → List String
  | [] => req
  | (_, Schema.bool _) :: rest => hoistReq req rest
  | (k, Schema.obj o) :: rest =>
      hoistReq (if o.required = some true then setInsert req k else req) rest

/-- The rewriting effect of the same `.map` closure: every object child
has its legacy flag removed (`o.required.take()`), boolean children pass
through. -/
def stripProps : List (String × Schema) → List (String × Schema)
  | [] => []
  | (k, Schema.bool b) :: rest => (k, Schema.bool b) :: stripProps rest
  | (k, Schema.obj o) :: rest => (k, Schema.obj o.stripRequired) :: stripProps rest

theorem sizeOf_stripRequired_le (o : SchemaObject) :
    sizeOf o.stripRequired ≤ sizeOf o := by
  cases o with
  | mk md it fm ev cv ss nu st ar ob rf rq ex =>
    cases rq <;> simp [SchemaObject.stripRequired]

theorem sizeOf_stripProps_le (l : List (String × Schema)) :
    sizeOf (stripProps l) ≤ sizeOf l := by
  induction l with
  | nil => simp [stripProps]
  | cons p rest ih =>
    obtain ⟨k, s⟩ := p
    cases s with
    | bool b => simp [stripProps]; omega
    | obj o =>
      have h := sizeOf_stripRequired_le o
      simp [stripProps]
      omega

/-- The `process_props` fold of `ObjectValidation::try_into`
(src/src/lib.rs lines 403-414): insert each successful conversion into
the output map, push each failure (with its key) onto the error list. -/
def processProps (acc : List (String × Schemars.Schema) × List (String × Err)) :
    List (String × Except Err Schemars.Schema) →
    List (String × Schemars.Schema) × List (String × Err)
  | [] => acc
  | (k, .ok v) :: rest => processProps (mapInsert acc.1 k v, acc.2) rest
  | (k, .error e) :: rest => processProps (acc.1, acc.2 ++ [(k, e)]) rest

mutual
/-- `impl TryInto<schemars::schema::Schema> for Schema`
(src/src/lib.rs lines 390-398). -/
def Schema.tryInto : Schema → Except Err Schemars.Schema
  | .bool b => .ok (.bool b)
  | .obj o => do
      let oc ← o.tryInto
      .ok (.obj oc)
termination_by s => sizeOf s

/-- `impl TryInto<schemars::schema::SchemaObject> for SchemaObject`
(src/src/lib.rs lines 354-388): bail on a present legacy `required`
flag, copy the inert fields, recursively convert `subschemas` (with the
"in subschemas" context), `array` and `object` (no added context). -/
def SchemaObject.tryInto : SchemaObject → Except Err Schemars.SchemaObject
  | .mk md it fm ev cv ss nu st ar ob rf rq ex =>
      if rq.isSome then .error ["found illegal \"required\" annotation"]
      else do
        let ssc ← ctxE "in subschemas" (optSubTryInto ss)
        let arc ← optArrTryInto ar
        let obc ← optObjTryInto ob
        .ok (.mk md it fm ev cv ssc nu st arc obc rf ex)
termination_by o => sizeOf o

/-- `self.subschemas.map(|s| (*s).try_into()).transpose()`. -/
def optSubTryInto : Option SubschemaValidation →
    Except Err (Option Schemars.SubschemaValidation)
  | none => .ok none
  | some s => do
      let c ← s.tryInto
      .ok (some c)
termination_by o => sizeOf o

/-- `self.array.map(|a| (*a).try_into()).transpose()`. -/
def optArrTryInto : Option ArrayValidation →
    Except Err (Option Schemars.ArrayValidation)
  | none => .ok none
  | some a => do
      let c ← a.tryInto
      .ok (some c)
termination_by o => sizeOf o

/-- `self.object.map(|a| (*a).try_into()).transpose()`. -/
def optObjTryInto : Option ObjectValidation →
    Except Err (Option Schemars.ObjectValidation)
  | none => .ok none
  | some o => do
      let c ← o.tryInto
      .ok (some c)
termination_by o => sizeOf o

/-- `opt.map(|s| (*s).try_into()).transpose()` for a single optional
nested schema (`not`, `if`, `then`, `else`, `additionalItems`,
`contains`, `additionalProperties`, `propertyNames`). -/
def optTryInto : Option Schema → Except Err (Option Schemars.Schema)
  | none => .ok none
  | some s => do
      let c ← s.tryInto
      .ok (some c)
termination_by o => sizeOf o

/-- `v.into_iter().map(|t| t.try_into())`: convert each element of a
schema list, keeping every result. -/
def listTryInto : List Schema → List (Except Err Schemars.Schema)
  | [] => []
  | s :: rest => s.tryInto :: listTryInto rest
termination_by l => sizeOf l

/-- The `map_vec_schema` closure of `SubschemaValidation::try_into`
(src/src/lib.rs lines 307-329) and the `Vec` arm of `sov_try_into`:
convert every element, then fail with the first collected error. -/
def mapVecSchema : Option (List Schema) →
    Except Err (Option (List Schemars.Schema))
  | none => .ok none
  | some v => (foldedResult (partitionResults (listTryInto v))).map some
termination_by o => sizeOf o

/-- `sov_try_into` (src/src/lib.rs lines 256-282). -/
def sovTryInto : SingleOrVec Schema →
    Except Err (SingleOrVec Schemars.Schema)
  | .single s => (s.tryInto).map .single
  | .vec v => (foldedResult (partitionResults (listTryInto v))).map .vec
termination_by sov => sizeOf sov

/-- `impl TryInto<schemars::schema::SubschemaValidation> for
SubschemaValidation` (src/src/lib.rs lines 303-352). -/
def SubschemaValidation.tryInto : SubschemaValidation →
    Except Err Schemars.SubschemaValidation
  | .mk allOf anyOf oneOf notS ifS thenS elseS => do
      let ao ← ctxE "in 'allOf'" (mapVecSchema allOf)
      let an ← ctxE "in 'anyOf'" (mapVecSchema anyOf)
      let oo ← ctxE "in 'oneOf'" (mapVecSchema oneOf)
      let nt ← optTryInto notS
      let ifc ← optTryInto ifS
      let thc ← optTryInto thenS
      let elc ← optTryInto elseS
      .ok (.mk ao an oo nt ifc thc elc)
termination_by s => sizeOf s

/-- `self.items.map(sov_try_into).transpose()`. -/
def optSovTryInto : Option (SingleOrVec Schema) →
    Except Err (Option (SingleOrVec Schemars.Schema))
  | none => .ok none
  | some sov => do
      let c ← sovTryInto sov
      .ok (some c)
termination_by o => sizeOf o

/-- `impl TryInto<schemars::schema::ArrayValidation> for ArrayValidation`
(src/src/lib.rs lines 253-301). -/
def ArrayValidation.tryInto : ArrayValidation →
    Except Err Schemars.ArrayValidation
  | .mk items addItems maxI minI uniq cont => do
      let it ← optSovTryInto items
      let ai ← optTryInto addItems
      let ct ← optTryInto cont
      .ok (.mk it ai maxI minI uniq ct)
termination_by a => sizeOf a

/-- `(k, v.try_into())` for each map entry, keeping every result. -/
def convertPairs : List (String × Schema) →
    List (String × Except Err Schemars.Schema)
  | [] => []
  | (k, s) :: rest => (k, s.tryInto) :: convertPairs rest
termination_by l => sizeOf l

/-- `impl TryInto<schemars::schema::ObjectValidation> for ObjectValidation`
(src/src/lib.rs lines 400-469): hoist/strip the legacy flags of
`properties` children, convert properties (first error wrapped
"in field 'k'"), convert `patternProperties` without hoisting (first
error wrapped "in pattern property 'k'"), then `additionalProperties`
and `propertyNames`. -/
def ObjectValidation.tryInto : ObjectValidation →
    Except Err Schemars.ObjectValidation
  | .mk maxP minP req props patProps addProps propNames =>
      match processProps ([], []) (convertPairs (stripProps props)) with
      | (_, (k, e) :: _) => .error (Err.ctx ("in field '" ++ k ++ "'") e)
      | (properties, []) =>
        match processProps ([], []) (convertPairs patProps) with
        | (_, (k, e) :: _) =>
            .error (Err.ctx ("in pattern property '" ++ k ++ "'") e)
        | (pattern_properties, []) => do
            let ap ← optTryInto addProps
            let pn ← optTryInto propNames
            .ok (.mk maxP minP (hoistReq req props) properties
                  pattern_properties ap pn)
termination_by ov => sizeOf ov
decreasing_by
  all_goals simp_wf
  all_goals try omega
  all_goals (have h := sizeOf_stripProps_le props; omega)
end

/-- Legacy `SchemaObject.metadata` accessor. -/
def SchemaObject.metadata : SchemaObject → Option Metadata
  | .mk md _ _ _ _ _ _ _ _ _ _ _ _ => md

/-- Legacy `SchemaObject.instance_type` accessor. -/
def SchemaObject.instance_type : SchemaObject → Option (SingleOrVec InstanceType)
  | .mk _ it _ _ _ _ _ _ _ _ _ _ _ => it

/-- Legacy `SchemaObject.format` accessor. -/
def SchemaObject.format : SchemaObject → Option String
  | .mk _ _ fm _ _ _ _ _ _ _ _ _ _ => fm

/-- Legacy `SchemaObject.enum_values` accessor. -/
def SchemaObject.enum_values : SchemaObject → Option (List Value)
  | .mk _ _ _ ev _ _ _ _ _ _ _ _ _ => ev

/-- Legacy `SchemaObject.const_value` accessor. -/
def SchemaObject.const_value : SchemaObject → Option Value
  | .mk _ _ _ _ cv _ _ _ _ _ _ _ _ => cv

/-- Legacy `SchemaObject.subschemas` accessor. -/
def SchemaObject.subschemas : SchemaObject → Option SubschemaValidation
  | .mk _ _ _ _ _ ss _ _ _ _ _ _ _ => ss

/-- Legacy `SchemaObject.number` accessor. -/
def SchemaObject.number : SchemaObject → Option NumberValidation
  | .mk _ _ _ _ _ _ nu _ _ _ _ _ _ => nu

/-- Legacy `SchemaObject.string` accessor. -/
def SchemaObject.string : SchemaObject → Option StringValidation
  | .mk _ _ _ _ _ _ _ st _ _ _ _ _ => st

/-- Legacy `SchemaObject.array` accessor. -/
def SchemaObject.array : SchemaObject → Option ArrayValidation
  | .mk _ _ _ _ _ _ _ _ ar _ _ _ _ => ar

/-- Legacy `SchemaObject.object` accessor. -/
def SchemaObject.object : SchemaObject → Option ObjectValidation
  | .mk _ _ _ _ _ _ _ _ _ ob _ _ _ => ob

/-- Legacy `SchemaObject.reference` accessor. -/
def SchemaObject.reference : SchemaObject → Option String
  | .mk _ _ _ _ _ _ _ _ _ _ rf _ _ => rf

/-- Legacy `SchemaObject.extensions` accessor. -/
def SchemaObject.extensions : SchemaObject → List (String × Value)
  | .mk _ _ _ _ _ _ _ _ _ _ _ _ ex => ex

/-- Canonical `SchemaObject.metadata` accessor. -/
def Schemars.SchemaObject.metadata : Schemars.SchemaObject → Option Metadata
  | .mk md _ _ _ _ _ _ _ _ _ _ _ => md

/-- Canonical `SchemaObject.instance_type` accessor. -/
def Schemars.SchemaObject.instance_type :
    Schemars.SchemaObject → Option (SingleOrVec InstanceType)
  | .mk _ it _ _ _ _ _ _ _ _ _ _ => it

/-- Canonical `SchemaObject.format` accessor. -/
def Schemars.SchemaObject.format : Schemars.SchemaObject → Option String
  | .mk _ _ fm _ _ _ _ _ _ _ _ _ => fm

/-- Canonical `SchemaObject.enum_values` accessor. -/
def Schemars.SchemaObject.enum_values : Schemars.SchemaObject → Option (List Value)
  | .mk _ _ _ ev _ _ _ _ _ _ _ _ => ev

/-- Canonical `SchemaObject.const_value` accessor. -/
def Schemars.SchemaObject.const_value : Schemars.SchemaObject → Option Value
  | .mk _ _ _ _ cv _ _ _ _ _ _ _ => cv

/-- Canonical `SchemaObject.subschemas` accessor. -/
def Schemars.SchemaObject.subschemas :
    Schemars.SchemaObject → Option Schemars.SubschemaValidation
  | .mk _ _ _ _ _ ss _ _ _ _ _ _ => ss

/-- Canonical `SchemaObject.number` accessor. -/
def Schemars.SchemaObject.number : Schemars.SchemaObject → Option NumberValidation
  | .mk _ _ _ _ _ _ nu _ _ _ _ _ => nu

/-- Canonical `SchemaObject.string` accessor. -/
def Schemars.SchemaObject.string : Schemars.SchemaObject → Option StringValidation
  | .mk _ _ _ _ _ _ _ st _ _ _ _ => st

/-- Canonical `SchemaObject.array` accessor. -/
def Schemars.SchemaObject.array : Schemars.SchemaObject → Option Schemars.ArrayValidation
  | .mk _ _ _ _ _ _ _ _ ar _ _ _ => ar

/-- Canonical `SchemaObject.object` accessor. -/
def Schemars.SchemaObject.object : Schemars.SchemaObject → Option Schemars.ObjectValidation
  | .mk _ _ _ _ _ _ _ _ _ ob _ _ => ob

/-- Canonical `SchemaObject.reference` accessor. -/
def Schemars.SchemaObject.reference : Schemars.SchemaObject → Option String
  | .mk _ _ _ _ _ _ _ _ _ _ rf _ => rf

/-- Canonical `SchemaObject.extensions` accessor. -/
def Schemars.SchemaObject.extensions : Schemars.SchemaObject → List (String × Value)
  | .mk _ _ _ _ _ _ _ _ _ _ _ ex => ex

/-- Legacy `ObjectValidation.required` accessor. -/
def ObjectValidation.required : ObjectValidation → List String
  | .mk _ _ rq _ _ _ _ => rq

/-- Legacy `ObjectValidation.properties` accessor. -/
def ObjectValidation.properties : ObjectValidation → List (String × Schema)
  | .mk _ _ _ pr _ _ _ => pr

/-- Legacy `ObjectValidation.pattern_properties` accessor. -/
def ObjectValidation.pattern_properties : ObjectValidation → List (String × Schema)
  | .mk _ _ _ _ pp _ _ => pp

/-- Canonical `ObjectValidation.required` accessor. -/
def Schemars.ObjectValidation.required : Schemars.ObjectValidation → List String
  | .mk _ _ rq _ _ _ _ => rq

/-- Canonical `ObjectValidation.properties` accessor. -/
def Schemars.ObjectValidation.properties :
    Schemars.ObjectValidation → List (String × Schemars.Schema)
  | .mk _ _ _ pr _ _ _ => pr

/-- Canonical `ObjectValidation.pattern_properties` accessor. -/
def Schemars.ObjectValidation.pattern_properties :
    Schemars.ObjectValidation → List (String × Schemars.Schema)
  | .mk _ _ _ _ pp _ _ => pp

/-- Modelled from the spec: the crate's `impl TryInto<schemars::schema::RootSchema>
for RootSchema` is not among the provided source files (the tests call
`parsed.try_into()` on a `RootSchema`, but only the schema-object-level
impls appear in src/src/lib.rs).  Spec §4.3 step 2: recursively convert
every entry of `definitions`, short-circuiting on the first error found in
any definition, aggregated with the defining name as path context. -/
def convertDefs : List (String × Schema) →
    Except Err (List (String × Schemars.Schema))
  | [] => .ok []
  | (k, s) :: rest =>
      match s.tryInto with
      | .error e => .error (Err.ctx ("in definition '" ++ k ++ "'") e)
      | .ok c => do
          let cs ← convertDefs rest
          .ok ((k, c) :: cs)

/-- Modelled from the spec: top-level conversion `convert(root) ->
Canonical_RootSchema | ConversionError` (spec §4.3 steps 1-2): convert the
root's schema object (which itself fails when the root carries the legacy
`required` flag), copy `metaSchema` through, and convert every
`definitions` entry via `convertDefs`. -/
def RootSchema.tryInto (r : RootSchema) : Except Err Schemars.RootSchema := do
  let schema ← r.schema.tryInto
  let defs ← convertDefs r.definitions
  .ok ⟨r.meta_schema, schema, defs⟩

mutual
/-- Field-wise copy of a legacy schema into the canonical model, dropping
the legacy `required` flag; reference value for the no-op behaviour of the
conversion on flag-free input. -/
def Schema.toCanonical : Schema → Schemars.Schema
  | .bool b => .bool b
  | .obj o => .obj o.toCanonical

/-- Field-wise copy of a legacy schema object, dropping the flag. -/
def SchemaObject.toCanonical : SchemaObject → Schemars.SchemaObject
  | .mk md it fm ev cv ss nu st ar ob rf _ ex =>
      .mk md it fm ev cv (optSubToCanonical ss) nu st (optArrToCanonical ar)
        (optObjToCanonical ob) rf ex

/-- `toCanonical` through an optional `SubschemaValidation`. -/
def optSubToCanonical : Option SubschemaValidation →
    Option Schemars.SubschemaValidation
  | none => none
  | some s => some s.toCanonical

/-- `toCanonical` through an optional `ArrayValidation`. -/
def optArrToCanonical : Option ArrayValidation → Option Schemars.ArrayValidation
  | none => none
  | some a => some a.toCanonical

/-- `toCanonical` through an optional `ObjectValidation`. -/
def optObjToCanonical : Option ObjectValidation → Option Schemars.ObjectValidation
  | none => none
  | some o => some o.toCanonical

/-- `toCanonical` through an optional nested schema. -/
def optToCanonical : Option Schema → Option Schemars.Schema
  | none => none
  | some s => some s.toCanonical

/-- `toCanonical` through a schema list. -/
def listToCanonical : List Schema → List Schemars.Schema
  | [] => []
  | s :: rest => s.toCanonical :: listToCanonical rest

/-- `toCanonical` through an optional schema list. -/
def optListToCanonical : Option (List Schema) → Option (List Schemars.Schema)
  | none => none
  | some v => some (listToCanonical v)

/-- Field-wise copy of legacy subschema composition keywords. -/
def SubschemaValidation.toCanonical : SubschemaValidation →
    Schemars.SubschemaValidation
  | .mk allOf anyOf oneOf notS ifS thenS elseS =>
      .mk (optListToCanonical allOf) (optListToCanonical anyOf)
        (optListToCanonical oneOf) (optToCanonical notS) (optToCanonical ifS)
        (optToCanonical thenS) (optToCanonical elseS)

/-- `toCanonical` through `SingleOrVec`. -/
def sovToCanonical : SingleOrVec Schema → SingleOrVec Schemars.Schema
  | .single s => .single s.toCanonical
  | .vec v => .vec (listToCanonical v)

/-- `toCanonical` through an optional `SingleOrVec`. -/
def optSovToCanonical : Option (SingleOrVec Schema) →
    Option (SingleOrVec Schemars.Schema)
  | none => none
  | some sov => some (sovToCanonical sov)

/-- Field-wise copy of legacy array validation keywords. -/
def ArrayValidation.toCanonical : ArrayValidation → Schemars.ArrayValidation
  | .mk items addItems maxI minI uniq cont =>
      .mk (optSovToCanonical items) (optToCanonical addItems) maxI minI uniq
        (optToCanonical cont)

/-- `toCanonical` through the entries of a properties map. -/
def pairsToCanonical : List (String × Schema) →
    List (String × Schemars.Schema)
  | [] => []
  | (k, s) :: rest => (k, s.toCanonical) :: pairsToCanonical rest

/-- Field-wise copy of legacy object validation keywords. -/
def ObjectValidation.toCanonical : ObjectValidation → Schemars.ObjectValidation
  | .mk maxP minP req props patProps addProps propNames =>
      .mk maxP minP req (pairsToCanonical props) (pairsToCanonical patProps)
        (optToCanonical addProps) (optToCanonical propNames)
end

mutual
/-- No schema object anywhere in this legacy schema carries the legacy
`required` flag (the schema is already canonical). -/
def Schema.flagFree : Schema → Bool
  | .bool _ => true
  | .obj o => o.flagFree

/-- `flagFree` for a schema object: its own flag is absent and all nested
schemas are flag-free. -/
def SchemaObject.flagFree : SchemaObject → Bool
  | .mk _ _ _ _ _ ss _ _ ar ob _ rq _ =>
      rq.isNone && optSubFlagFree ss && optArrFlagFree ar && optObjFlagFree ob

/-- `flagFree` through an optional `SubschemaValidation`. -/
def optSubFlagFree : Option SubschemaValidation → Bool
  | none => true
  | some s => s.flagFree

/-- `flagFree` through an optional `ArrayValidation`. -/
def optArrFlagFree : Option ArrayValidation → Bool
  | none => true
  | some a => a.flagFree

/-- `flagFree` through an optional `ObjectValidation`. -/
def optObjFlagFree : Option ObjectValidation → Bool
  | none => true
  | some o => o.flagFree

/-- `flagFree` through an optional nested schema. -/
def optFlagFree : Option Schema → Bool
  | none => true
  | some s => s.flagFree

/-- `flagFree` through a schema list. -/
def listFlagFree : List Schema → Bool
  | [] => true
  | s :: rest => s.flagFree && listFlagFree rest

/-- `flagFree` through an optional schema list. -/
def optListFlagFree : Option (List Schema) → Bool
  | none => true
  | some v => listFlagFree v

/-- `flagFree` for subschema composition keywords. -/
def SubschemaValidation.flagFree : SubschemaValidation → Bool
  | .mk allOf anyOf oneOf notS ifS thenS elseS =>
      optListFlagFree allOf && optListFlagFree anyOf && optListFlagFree oneOf &&
        optFlagFree notS && optFlagFree ifS && optFlagFree thenS &&
        optFlagFree elseS

/-- `flagFree` through `SingleOrVec`. -/
def sovFlagFree : SingleOrVec Schema → Bool
  | .single s => s.flagFree
  | .vec v => listFlagFree v

/-- `flagFree` through an optional `SingleOrVec`. -/
def optSovFlagFree : Option (SingleOrVec Schema) → Bool
  | none => true
  | some sov => sovFlagFree sov

/-- `flagFree` for array validation keywords. -/
def ArrayValidation.flagFree : ArrayValidation → Bool
  | .mk items addItems _ _ _ cont =>
      optSovFlagFree items && optFlagFree addItems && optFlagFree cont

/-- `flagFree` through the entries of a properties map. -/
def pairsFlagFree : List (String × Schema) → Bool
  | [] => true
  | (_, s) :: rest => s.flagFree && pairsFlagFree rest

/-- `flagFree` for object validation keywords. -/
def ObjectValidation.flagFree : ObjectValidation → Bool
  | .mk _ _ _ props patProps addProps propNames =>
      pairsFlagFree props && pairsFlagFree patProps &&
        optFlagFree addProps && optFlagFree propNames
end

mutual
/-- Re-read a canonical schema as a legacy-tolerant one (no legacy flag
anywhere): the injection used to state that conversion is a no-op on its
own output. -/
def Schemars.Schema.toLegacy : Schemars.Schema → Schema
  | .bool b => .bool b
  | .obj o => .obj o.toLegacy

/-- `toLegacy` for a schema object: field-wise copy, `required := none`. -/
def Schemars.SchemaObject.toLegacy : Schemars.SchemaObject → SchemaObject
  | .mk md it fm ev cv ss nu st ar ob rf ex =>
      .mk md it fm ev cv (optSubToLegacy ss) nu st (optArrToLegacy ar)
        (optObjToLegacy ob) rf none ex

/-- `toLegacy` through an optional `SubschemaValidation`. -/
def optSubToLegacy : Option Schemars.SubschemaValidation →
    Option SubschemaValidation
  | none => none
  | some s => some s.toLegacy

/-- `toLegacy` through an optional `ArrayValidation`. -/
def optArrToLegacy : Option Schemars.ArrayValidation → Option ArrayValidation
  | none => none
  | some a => some a.toLegacy

/-- `toLegacy` through an optional `ObjectValidation`. -/
def optObjToLegacy : Option Schemars.ObjectValidation → Option ObjectValidation
  | none => none
  | some o => some o.toLegacy

/-- `toLegacy` through an optional nested schema. -/
def optToLegacy : Option Schemars.Schema → Option Schema
  | none => none
  | some s => some s.toLegacy

/-- `toLegacy` through a schema list. -/
def listToLegacy : List Schemars.Schema → List Schema
  | [] => []
  | s :: rest => s.toLegacy :: listToLegacy rest

/-- `toLegacy` through an optional schema list. -/
def optListToLegacy : Option (List Schemars.Schema) → Option (List Schema)
  | none => none
  | some v => some (listToLegacy v)

/-- `toLegacy` for subschema composition keywords. -/
def Schemars.SubschemaValidation.toLegacy : Schemars.SubschemaValidation →
    SubschemaValidation
  | .mk allOf anyOf oneOf notS ifS thenS elseS =>
      .mk (optListToLegacy allOf) (optListToLegacy anyOf)
        (optListToLegacy oneOf) (optToLegacy notS) (optToLegacy ifS)
        (optToLegacy thenS) (optToLegacy elseS)

/-- `toLegacy` through `SingleOrVec`. -/
def sovToLegacy : SingleOrVec Schemars.Schema → SingleOrVec Schema
  | .single s => .single s.toLegacy
  | .vec v => .vec (listToLegacy v)

/-- `toLegacy` through an optional `SingleOrVec`. -/
def optSovToLegacy : Option (SingleOrVec Schemars.Schema) →
    Option (SingleOrVec Schema)
  | none => none
  | some sov => some (sovToLegacy sov)

/-- `toLegacy` for array validation keywords. -/
def Schemars.ArrayValidation.toLegacy : Schemars.ArrayValidation →
    ArrayValidation
  | .mk items addItems maxI minI uniq cont =>
      .mk (optSovToLegacy items) (optToLegacy addItems) maxI minI uniq
        (optToLegacy cont)

/-- `toLegacy` through the entries of a properties map. -/
def pairsToLegacy : List (String × Schemars.Schema) →
    List (String × Schema)
  | [] => []
  | (k, s) :: rest => (k, s.toLegacy) :: pairsToLegacy rest

/-- `toLegacy` for object validation keywords. -/
def Schemars.ObjectValidation.toLegacy : Schemars.ObjectValidation →
    ObjectValidation
  | .mk maxP minP req props patProps addProps propNames =>
      .mk maxP minP req (pairsToLegacy props) (pairsToLegacy patProps)
        (optToLegacy addProps) (optToLegacy propNames)
end

/-- The error produced by `bail!("found illegal \"required\" annotation")`
in `SchemaObject::try_into` (src/src/lib.rs line 358). -/
def illegalRequiredErr : Err := ["found illegal \"required\" annotation"]

theorem tryInto_of_flagged (o : SchemaObject) (h : o.required.isSome) :
    o.tryInto = .error illegalRequiredErr := by
  cases o with
  | mk md it fm ev cv ss nu st ar ob rf rq ex =>
    simp only [SchemaObject.required] at h
    simp [SchemaObject.tryInto, h, illegalRequiredErr]

theorem stripRequired_required (o : SchemaObject) :
    o.stripRequired.required = none := by
  cases o; simp [SchemaObject.stripRequired, SchemaObject.required]

theorem stripRequired_idem (o : SchemaObject) :
    o.stripRequired.stripRequired = o.stripRequired := by
  cases o; simp [SchemaObject.stripRequired]

theorem stripProps_idem (l : List (String × Schema)) :
    stripProps (stripProps l) = stripProps l := by
  induction l with
  | nil => simp [stripProps]
  | cons p rest ih =>
    obtain ⟨k, s⟩ := p
    cases s with
    | bool b => simp [stripProps, ih]
    | obj o => simp [stripProps, ih, stripRequired_idem]

theorem hoistReq_stripProps (r : List String) (l : List (String × Schema)) :
    hoistReq r (stripProps l) = r := by
  induction l generalizing r with
  | nil => simp [stripProps, hoistReq]
  | cons p rest ih =>
    obtain ⟨k, s⟩ := p
    cases s with
    | bool b => simp [stripProps, hoistReq, ih]
    | obj o => simp [stripProps, hoistReq, stripRequired_required, ih]

theorem stripProps_keys (l : List (String × Schema)) :
    (stripProps l).map Prod.fst = l.map Prod.fst := by
  induction l with
  | nil => simp [stripProps]
  | cons p rest ih =>
    obtain ⟨k, s⟩ := p
    cases s with
    | bool b => simp [stripProps, ih]
    | obj o => simp [stripProps, ih]

theorem convertPairs_keys (l : List (String × Schema)) :
    (convertPairs l).map Prod.fst = l.map Prod.fst := by
  induction l with
  | nil => simp [convertPairs]
  | cons p rest ih =>
    obtain ⟨k, s⟩ := p
    simp [convertPairs, ih]

/-- The `(key, error)` pairs among a list of per-entry conversion results,
in encounter order: the value collected in the `errs` component of the
`process_props` fold. -/
def errsOf (l : List (String × Except Err Schemars.Schema)) :
    List (String × Err) :=
  l.filterMap (fun p =>
    match p.2 with
    | .error e => some (p.1, e)
    | .ok _ => none)

theorem processProps_snd (m : List (String × Schemars.Schema))
    (errs : List (String × Err)) (l : List (String × Except Err Schemars.Schema)) :
    (processProps (m, errs) l).2 = errs ++ errsOf l := by
  induction l generalizing m errs with
  | nil => simp [processProps, errsOf]
  | cons p rest ih =>
    obtain ⟨k, r⟩ := p
    cases r with
    | ok v => simpa [processProps, errsOf] using ih (mapInsert m k v) errs
    | error e =>
      simp only [processProps, errsOf, List.filterMap_cons]
      rw [ih m (errs ++ [(k, e)])]
      simp [errsOf]

theorem mapInsert_of_not_mem {α : Type} (m : List (String × α)) (k : String)
    (v : α) (h : k ∉ m.map Prod.fst) : mapInsert m k v = m ++ [(k, v)] := by
  have hany : m.any (fun p => p.1 == k) = false := by
    rw [List.any_eq_false]
    intro p hp
    show ¬(p.1 == k) = true
    intro hbeq
    exact h (List.mem_map.mpr ⟨p, hp, eq_of_beq hbeq⟩)
  simp [mapInsert, hany]

theorem processProps_fst_keys (m : List (String × Schemars.Schema))
    (errs : List (String × Err)) (l : List (String × Except Err Schemars.Schema))
    (hdisj : ∀ k ∈ l.map Prod.fst, k ∉ m.map Prod.fst)
    (hnd : (l.map Prod.fst).Nodup) (hok : errsOf l = []) :
    (processProps (m, errs) l).1.map Prod.fst = m.map Prod.fst ++ l.map Prod.fst := by
  induction l generalizing m errs with
  | nil => simp [processProps]
  | cons p rest ih =>
    obtain ⟨k, r⟩ := p
    cases r with
    | error e => simp [errsOf] at hok
    | ok v =>
      have hk : k ∉ m.map Prod.fst := hdisj k (by simp)
      have hins := mapInsert_of_not_mem m k v hk
      simp only [processProps, hins]
      simp only [List.map_cons, List.nodup_cons] at hnd
      have := ih (m ++ [(k, v)]) errs
        (by
          intro k2 hk2 hmem
          rw [List.map_append, List.mem_append] at hmem
          rcases hmem with h2 | h2
          · exact hdisj k2 (by simp [hk2]) h2
          · simp only [List.map_cons, List.map_nil, List.mem_singleton] at h2
            exact hnd.1 (h2 ▸ hk2))
        hnd.2
        (by simpa [errsOf] using hok)
      rw [this]
      simp

mutual
/-- Representation invariant of the decoded input: every `properties` /
`patternProperties` map in the tree has pairwise-distinct keys (a Rust
`Map` cannot hold duplicate keys; the association-list model can). -/
def Schema.wfKeys : Schema → Bool
  | .bool _ => true
  | .obj o => o.wfKeys

/-- `wfKeys` for a schema object. -/
def SchemaObject.wfKeys : SchemaObject → Bool
  | .mk _ _ _ _ _ ss _ _ ar ob _ _ _ =>
      optSubWfKeys ss && optArrWfKeys ar && optObjWfKeys ob

/-- `wfKeys` through an optional `SubschemaValidation`. -/
def optSubWfKeys : Option SubschemaValidation → Bool
  | none => true
  | some s => s.wfKeys

/-- `wfKeys` through an optional `ArrayValidation`. -/
def optArrWfKeys : Option ArrayValidation → Bool
  | none => true
  | some a => a.wfKeys

/-- `wfKeys` through an optional `ObjectValidation`. -/
def optObjWfKeys : Option ObjectValidation → Bool
  | none => true
  | some o => o.wfKeys

/-- `wfKeys` through an optional nested schema. -/
def optWfKeys : Option Schema → Bool
  | none => true
  | some s => s.wfKeys

/-- `wfKeys` through a schema list. -/
def listWfKeys : List Schema → Bool
  | [] => true
  | s :: rest => s.wfKeys && listWfKeys rest

/-- `wfKeys` through an optional schema list. -/
def optListWfKeys : Option (List Schema) → Bool
  | none => true
  | some v => listWfKeys v

/-- `wfKeys` for subschema composition keywords. -/
def SubschemaValidation.wfKeys : SubschemaValidation → Bool
  | .mk allOf anyOf oneOf notS ifS thenS elseS =>
      optListWfKeys allOf && optListWfKeys anyOf && optListWfKeys oneOf &&
        optWfKeys notS && optWfKeys ifS && optWfKeys thenS && optWfKeys elseS

/-- `wfKeys` through `SingleOrVec`. -/
def sovWfKeys : SingleOrVec Schema → Bool
  | .single s => s.wfKeys
  | .vec v => listWfKeys v

/-- `wfKeys` through an optional `SingleOrVec`. -/
def optSovWfKeys : Option (SingleOrVec Schema) → Bool
  | none => true
  | some sov => sovWfKeys sov

/-- `wfKeys` for array validation keywords. -/
def ArrayValidation.wfKeys : ArrayValidation → Bool
  | .mk items addItems _ _ _ cont =>
      optSovWfKeys items && optWfKeys addItems && optWfKeys cont

/-- `wfKeys` through the entries of a properties map. -/
def pairsWfKeys : List (String × Schema) → Bool
  | [] => true
  | (_, s) :: rest => s.wfKeys && pairsWfKeys rest

/-- `wfKeys` for object validation keywords: the two property maps have
distinct keys and all nested schemas are well-keyed. -/
def ObjectValidation.wfKeys : ObjectValidation → Bool
  | .mk _ _ _ props patProps addProps propNames =>
      decide (props.map Prod.fst).Nodup &&
        decide (patProps.map Prod.fst).Nodup &&
        pairsWfKeys props && pairsWfKeys patProps &&
        optWfKeys addProps && optWfKeys propNames
end

theorem stripRequired_of_none (o : SchemaObject) (h : o.required = none) :
    o.stripRequired = o := by
  cases o with
  | mk md it fm ev cv ss nu st ar ob rf rq ex =>
    simp only [SchemaObject.required] at h
    simp [SchemaObject.stripRequired, h]

theorem stripProps_of_pairsFlagFree (l : List (String × Schema))
    (h : pairsFlagFree l = true) : stripProps l = l := by
  induction l with
  | nil => simp [stripProps]
  | cons p rest ih =>
    obtain ⟨k, s⟩ := p
    simp only [pairsFlagFree, Bool.and_eq_true] at h
    cases s with
    | bool b => simp [stripProps, ih h.2]
    | obj o =>
      have hrq : o.required = none := by
        cases o with
        | mk md it fm ev cv ss nu st ar ob rf rq ex =>
          have := h.1
          simp only [Schema.flagFree, SchemaObject.flagFree,
            Bool.and_eq_true, Option.isNone_iff_eq_none] at this
          simpa [SchemaObject.required] using this.1.1.1
      simp [stripProps, ih h.2, stripRequired_of_none o hrq]

theorem hoistReq_of_pairsFlagFree (r : List String) (l : List (String × Schema))
    (h : pairsFlagFree l = true) : hoistReq r l = r := by
  induction l generalizing r with
  | nil => simp [hoistReq]
  | cons p rest ih =>
    obtain ⟨k, s⟩ := p
    simp only [pairsFlagFree, Bool.and_eq_true] at h
    cases s with
    | bool b => simp [hoistReq, ih r h.2]
    | obj o =>
      have hrq : o.required = none := by
        cases o with
        | mk md it fm ev cv ss nu st ar ob rf rq ex =>
          have := h.1
          simp only [Schema.flagFree, SchemaObject.flagFree,
            Bool.and_eq_true, Option.isNone_iff_eq_none] at this
          simpa [SchemaObject.required] using this.1.1.1
      simp [hoistReq, hrq, ih r h.2]

theorem partitionResults_of_ok {α : Type} (l : List α) :
    partitionResults (l.map Except.ok) = (l, []) := by
  induction l with
  | nil => simp [partitionResults]
  | cons a rest ih => simp [partitionResults, ih]

theorem processProps_of_ok (m : List (String × Schemars.Schema))
    (errs : List (String × Err)) (l : List (String × Schemars.Schema))
    (hdisj : ∀ k ∈ l.map Prod.fst, k ∉ m.map Prod.fst)
    (hnd : (l.map Prod.fst).Nodup) :
    processProps (m, errs) (l.map (fun p => (p.1, Except.ok p.2))) =
      (m ++ l, errs) := by
  induction l generalizing m with
  | nil => simp [processProps]
  | cons p rest ih =>
    obtain ⟨k, v⟩ := p
    have hk : k ∉ m.map Prod.fst := hdisj k (by simp)
    simp only [List.map_cons, processProps, mapInsert_of_not_mem m k v hk]
    simp only [List.map_cons, List.nodup_cons] at hnd
    rw [ih (m ++ [(k, v)])
      (by
        intro k2 hk2 hmem
        rw [List.map_append, List.mem_append] at hmem
        rcases hmem with h2 | h2
        · exact hdisj k2 (by simp [hk2]) h2
        · simp only [List.map_cons, List.map_nil, List.mem_singleton] at h2
          exact hnd.1 (h2 ▸ hk2))
      hnd.2]
    simp

theorem pairsToCanonical_keys (l : List (String × Schema)) :
    (pairsToCanonical l).map Prod.fst = l.map Prod.fst := by
  induction l with
  | nil => simp [pairsToCanonical]
  | cons p rest ih =>
    obtain ⟨k, s⟩ := p
    simp [pairsToCanonical, ih]

@[simp]
theorem ok_bind {ε α β : Type} (a : α) (f : α → Except ε β) :
    (Except.ok a : Except ε α) >>= f = f a := rfl

@[simp]
theorem error_bind {ε α β : Type} (e : ε) (f : α → Except ε β) :
    (Except.error e : Except ε α) >>= f = Except.error e := rfl

@[simp]
theorem map_ok {ε α β : Type} (f : α → β) (a : α) :
    Except.map f (Except.ok a : Except ε α) = Except.ok (f a) := rfl

@[simp]
theorem map_error {ε α β : Type} (f : α → β) (e : ε) :
    Except.map f (Except.error e : Except ε α) = Except.error e := rfl

mutual
/-- Conversion of a flag-free, well-keyed schema succeeds and is the
field-wise copy `toCanonical`. -/
theorem tryInto_ok_of_flagFree : ∀ s : Schema, s.flagFree = true →
    s.wfKeys = true → s.tryInto = .ok s.toCanonical
  | .bool b, _, _ => by simp [Schema.tryInto, Schema.toCanonical]
  | .obj o, hf, hw => by
      have h := tryIntoObj_ok_of_flagFree o (by simpa [Schema.flagFree] using hf)
        (by simpa [Schema.wfKeys] using hw)
      simp [Schema.tryInto, Schema.toCanonical, h]
termination_by s => sizeOf s

/-- Object case of `tryInto_ok_of_flagFree`. -/
theorem tryIntoObj_ok_of_flagFree : ∀ o : SchemaObject, o.flagFree = true →
    o.wfKeys = true → o.tryInto = .ok o.toCanonical
  | .mk md it fm ev cv ss nu st ar ob rf rq ex, hf, hw => by
      simp only [SchemaObject.flagFree, Bool.and_eq_true,
        Option.isNone_iff_eq_none] at hf
      simp only [SchemaObject.wfKeys, Bool.and_eq_true] at hw
      obtain ⟨⟨⟨hrq, hss⟩, har⟩, hob⟩ := hf
      obtain ⟨⟨hwss, hwar⟩, hwob⟩ := hw
      have h1 := optSubTryInto_ok_of_flagFree ss hss hwss
      have h2 := optArrTryInto_ok_of_flagFree ar har hwar
      have h3 := optObjTryInto_ok_of_flagFree ob hob hwob
      simp [SchemaObject.tryInto, hrq, h1, h2, h3, ctxE,
        SchemaObject.toCanonical]
termination_by o => sizeOf o

/-- Optional-subschemas case of `tryInto_ok_of_flagFree`. -/
theorem optSubTryInto_ok_of_flagFree : ∀ ss : Option SubschemaValidation,
    optSubFlagFree ss = true → optSubWfKeys ss = true →
    optSubTryInto ss = .ok (optSubToCanonical ss)
  | none, _, _ => by simp [optSubTryInto, optSubToCanonical]
  | some s, hf, hw => by
      have h := tryIntoSub_ok_of_flagFree s (by simpa [optSubFlagFree] using hf)
        (by simpa [optSubWfKeys] using hw)
      simp [optSubTryInto, optSubToCanonical, h]
termination_by ss => sizeOf ss

/-- Optional-array-validation case of `tryInto_ok_of_flagFree`. -/
theorem optArrTryInto_ok_of_flagFree : ∀ ar : Option ArrayValidation,
    optArrFlagFree ar = true → optArrWfKeys ar = true →
    optArrTryInto ar = .ok (optArrToCanonical ar)
  | none, _, _ => by simp [optArrTryInto, optArrToCanonical]
  | some a, hf, hw => by
      have h := tryIntoArr_ok_of_flagFree a (by simpa [optArrFlagFree] using hf)
        (by simpa [optArrWfKeys] using hw)
      simp [optArrTryInto, optArrToCanonical, h]
termination_by ar => sizeOf ar

/-- Optional-object-validation case of `tryInto_ok_of_flagFree`. -/
theorem optObjTryInto_ok_of_flagFree : ∀ ob : Option ObjectValidation,
    optObjFlagFree ob = true → optObjWfKeys ob = true →
    optObjTryInto ob = .ok (optObjToCanonical ob)
  | none, _, _ => by simp [optObjTryInto, optObjToCanonical]
  | some o, hf, hw => by
      have h := tryIntoObjVal_ok_of_flagFree o (by simpa [optObjFlagFree] using hf)
        (by simpa [optObjWfKeys] using hw)
      simp [optObjTryInto, optObjToCanonical, h]
termination_by ob => sizeOf ob

/-- Optional-single-schema case of `tryInto_ok_of_flagFree`. -/
theorem optTryInto_ok_of_flagFree : ∀ os : Option Schema,
    optFlagFree os = true → optWfKeys os = true →
    optTryInto os = .ok (optToCanonical os)
  | none, _, _ => by simp [optTryInto, optToCanonical]
  | some s, hf, hw => by
      have h := tryInto_ok_of_flagFree s (by simpa [optFlagFree] using hf)
        (by simpa [optWfKeys] using hw)
      simp [optTryInto, optToCanonical, h]
termination_by os => sizeOf os

/-- Schema-list case of `tryInto_ok_of_flagFree`. -/
theorem listTryInto_ok_of_flagFree : ∀ l : List Schema,
    listFlagFree l = true → listWfKeys l = true →
    listTryInto l = (listToCanonical l).map Except.ok
  | [], _, _ => by simp [listTryInto, listToCanonical]
  | s :: rest, hf, hw => by
      simp only [listFlagFree, Bool.and_eq_true] at hf
      simp only [listWfKeys, Bool.and_eq_true] at hw
      have h1 := tryInto_ok_of_flagFree s hf.1 hw.1
      have h2 := listTryInto_ok_of_flagFree rest hf.2 hw.2
      simp [listTryInto, listToCanonical, h1, h2]
termination_by l => sizeOf l

/-- Optional-schema-list case of `tryInto_ok_of_flagFree`. -/
theorem mapVecSchema_ok_of_flagFree : ∀ ol : Option (List Schema),
    optListFlagFree ol = true → optListWfKeys ol = true →
    mapVecSchema ol = .ok (optListToCanonical ol)
  | none, _, _ => by simp [mapVecSchema, optListToCanonical]
  | some v, hf, hw => by
      have h := listTryInto_ok_of_flagFree v (by simpa [optListFlagFree] using hf)
        (by simpa [optListWfKeys] using hw)
      simp [mapVecSchema, optListToCanonical, h, partitionResults_of_ok,
        foldedResult]
termination_by ol => sizeOf ol

/-- `SingleOrVec` case of `tryInto_ok_of_flagFree`. -/
theorem sovTryInto_ok_of_flagFree : ∀ sov : SingleOrVec Schema,
    sovFlagFree sov = true → sovWfKeys sov = true →
    sovTryInto sov = .ok (sovToCanonical sov)
  | .single s, hf, hw => by
      have h := tryInto_ok_of_flagFree s (by simpa [sovFlagFree] using hf)
        (by simpa [sovWfKeys] using hw)
      simp [sovTryInto, sovToCanonical, h]
  | .vec v, hf, hw => by
      have h := listTryInto_ok_of_flagFree v (by simpa [sovFlagFree] using hf)
        (by simpa [sovWfKeys] using hw)
      simp [sovTryInto, sovToCanonical, h, partitionResults_of_ok, foldedResult]
termination_by sov => sizeOf sov

/-- Subschema-validation case of `tryInto_ok_of_flagFree`. -/
theorem tryIntoSub_ok_of_flagFree : ∀ sv : SubschemaValidation,
    sv.flagFree = true → sv.wfKeys = true → sv.tryInto = .ok sv.toCanonical
  | .mk allOf anyOf oneOf notS ifS thenS elseS, hf, hw => by
      simp only [SubschemaValidation.flagFree, Bool.and_eq_true] at hf
      simp only [SubschemaValidation.wfKeys, Bool.and_eq_true] at hw
      obtain ⟨⟨⟨⟨⟨⟨h1, h2⟩, h3⟩, h4⟩, h5⟩, h6⟩, h7⟩ := hf
      obtain ⟨⟨⟨⟨⟨⟨w1, w2⟩, w3⟩, w4⟩, w5⟩, w6⟩, w7⟩ := hw
      have g1 := mapVecSchema_ok_of_flagFree allOf h1 w1
      have g2 := mapVecSchema_ok_of_flagFree anyOf h2 w2
      have g3 := mapVecSchema_ok_of_flagFree oneOf h3 w3
      have g4 := optTryInto_ok_of_flagFree notS h4 w4
      have g5 := optTryInto_ok_of_flagFree ifS h5 w5
      have g6 := optTryInto_ok_of_flagFree thenS h6 w6
      have g7 := optTryInto_ok_of_flagFree elseS h7 w7
      simp [SubschemaValidation.tryInto, SubschemaValidation.toCanonical,
        g1, g2, g3, g4, g5, g6, g7, ctxE]
termination_by sv => sizeOf sv

/-- Optional-`SingleOrVec` case of `tryInto_ok_of_flagFree`. -/
theorem optSovTryInto_ok_of_flagFree : ∀ osov : Option (SingleOrVec Schema),
    optSovFlagFree osov = true → optSovWfKeys osov = true →
    optSovTryInto osov = .ok (optSovToCanonical osov)
  | none, _, _ => by simp [optSovTryInto, optSovToCanonical]
  | some sov, hf, hw => by
      have h := sovTryInto_ok_of_flagFree sov (by simpa [optSovFlagFree] using hf)
        (by simpa [optSovWfKeys] using hw)
      simp [optSovTryInto, optSovToCanonical, h]
termination_by osov => sizeOf osov

/-- Array-validation case of `tryInto_ok_of_flagFree`. -/
theorem tryIntoArr_ok_of_flagFree : ∀ av : ArrayValidation,
    av.flagFree = true → av.wfKeys = true → av.tryInto = .ok av.toCanonical
  | .mk items addItems maxI minI uniq cont, hf, hw => by
      simp only [ArrayValidation.flagFree, Bool.and_eq_true] at hf
      simp only [ArrayValidation.wfKeys, Bool.and_eq_true] at hw
      obtain ⟨⟨h1, h2⟩, h3⟩ := hf
      obtain ⟨⟨w1, w2⟩, w3⟩ := hw
      have g1 := optSovTryInto_ok_of_flagFree items h1 w1
      have g2 := optTryInto_ok_of_flagFree addItems h2 w2
      have g3 := optTryInto_ok_of_flagFree cont h3 w3
      simp [ArrayValidation.tryInto, ArrayValidation.toCanonical, g1, g2, g3]
termination_by av => sizeOf av

/-- Properties-map case of `tryInto_ok_of_flagFree`. -/
theorem convertPairs_ok_of_flagFree : ∀ l : List (String × Schema),
    pairsFlagFree l = true → pairsWfKeys l = true →
    convertPairs l = (pairsToCanonical l).map (fun p => (p.1, Except.ok p.2))
  | [], _, _ => by simp [convertPairs, pairsToCanonical]
  | (k, s) :: rest, hf, hw => by
      simp only [pairsFlagFree, Bool.and_eq_true] at hf
      simp only [pairsWfKeys, Bool.and_eq_true] at hw
      have h1 := tryInto_ok_of_flagFree s hf.1 hw.1
      have h2 := convertPairs_ok_of_flagFree rest hf.2 hw.2
      simp [convertPairs, pairsToCanonical, h1, h2]
termination_by l => sizeOf l

/-- Object-validation case of `tryInto_ok_of_flagFree`. -/
theorem tryIntoObjVal_ok_of_flagFree : ∀ ov : ObjectValidation,
    ov.flagFree = true → ov.wfKeys = true → ov.tryInto = .ok ov.toCanonical
  | .mk maxP minP req props patProps addProps propNames, hf, hw => by
      simp only [ObjectValidation.flagFree, Bool.and_eq_true] at hf
      simp only [ObjectValidation.wfKeys, Bool.and_eq_true,
        decide_eq_true_eq] at hw
      obtain ⟨⟨⟨hfp, hfpp⟩, hfap⟩, hfpn⟩ := hf
      obtain ⟨⟨⟨⟨⟨hndp, hndpp⟩, hwp⟩, hwpp⟩, hwap⟩, hwpn⟩ := hw
      have hsp := stripProps_of_pairsFlagFree props hfp
      have hcp := convertPairs_ok_of_flagFree props hfp hwp
      have hcpp := convertPairs_ok_of_flagFree patProps hfpp hwpp
      have hprc := processProps_of_ok [] [] (pairsToCanonical props)
        (by simp) (by rw [pairsToCanonical_keys]; exact hndp)
      have hprcp := processProps_of_ok [] [] (pairsToCanonical patProps)
        (by simp) (by rw [pairsToCanonical_keys]; exact hndpp)
      have hhr := hoistReq_of_pairsFlagFree req props hfp
      have g2 := optTryInto_ok_of_flagFree addProps hfap hwap
      have g3 := optTryInto_ok_of_flagFree propNames hfpn hwpn
      simp [ObjectValidation.tryInto, ObjectValidation.toCanonical, hsp, hcp,
        hcpp, hprc, hprcp, hhr, g2, g3]
termination_by ov => sizeOf ov
end

mutual
/-- Re-reading the field-wise copy of a flag-free schema restores the
schema: `toLegacy` is a left inverse of `toCanonical` on flag-free input. -/
theorem toLegacy_toCanonical : ∀ s : Schema, s.flagFree = true →
    s.toCanonical.toLegacy = s
  | .bool b, _ => by simp [Schema.toCanonical, Schemars.Schema.toLegacy]
  | .obj o, hf => by
      have h := toLegacyObj_toCanonical o (by simpa [Schema.flagFree] using hf)
      simp [Schema.toCanonical, Schemars.Schema.toLegacy, h]
termination_by s => sizeOf s

/-- Object case of `toLegacy_toCanonical`. -/
theorem toLegacyObj_toCanonical : ∀ o : SchemaObject, o.flagFree = true →
    o.toCanonical.toLegacy = o
  | .mk md it fm ev cv ss nu st ar ob rf rq ex, hf => by
      simp only [SchemaObject.flagFree, Bool.and_eq_true,
        Option.isNone_iff_eq_none] at hf
      obtain ⟨⟨⟨hrq, hss⟩, har⟩, hob⟩ := hf
      have h1 := optSubToLegacy_toCanonical ss hss
      have h2 := optArrToLegacy_toCanonical ar har
      have h3 := optObjToLegacy_toCanonical ob hob
      simp [SchemaObject.toCanonical, Schemars.SchemaObject.toLegacy, hrq,
        h1, h2, h3]
termination_by o => sizeOf o

/-- Optional-subschemas case of `toLegacy_toCanonical`. -/
theorem optSubToLegacy_toCanonical : ∀ ss : Option SubschemaValidation,
    optSubFlagFree ss = true → optSubToLegacy (optSubToCanonical ss) = ss
  | none, _ => by simp [optSubToCanonical, optSubToLegacy]
  | some s, hf => by
      have h := toLegacySub_toCanonical s (by simpa [optSubFlagFree] using hf)
      simp [optSubToCanonical, optSubToLegacy, h]
termination_by ss => sizeOf ss

/-- Optional-array-validation case of `toLegacy_toCanonical`. -/
theorem optArrToLegacy_toCanonical : ∀ ar : Option ArrayValidation,
    optArrFlagFree ar = true → optArrToLegacy (optArrToCanonical ar) = ar
  | none, _ => by simp [optArrToCanonical, optArrToLegacy]
  | some a, hf => by
      have h := toLegacyArr_toCanonical a (by simpa [optArrFlagFree] using hf)
      simp [optArrToCanonical, optArrToLegacy, h]
termination_by ar => sizeOf ar

/-- Optional-object-validation case of `toLegacy_toCanonical`. -/
theorem optObjToLegacy_toCanonical : ∀ ob : Option ObjectValidation,
    optObjFlagFree ob = true → optObjToLegacy (optObjToCanonical ob) = ob
  | none, _ => by simp [optObjToCanonical, optObjToLegacy]
  | some o, hf => by
      have h := toLegacyObjVal_toCanonical o (by simpa [optObjFlagFree] using hf)
      simp [optObjToCanonical, optObjToLegacy, h]
termination_by ob => sizeOf ob

/-- Optional-single-schema case of `toLegacy_toCanonical`. -/
theorem optToLegacy_toCanonical : ∀ os : Option Schema,
    optFlagFree os = true → optToLegacy (optToCanonical os) = os
  | none, _ => by simp [optToCanonical, optToLegacy]
  | some s, hf => by
      have h := toLegacy_toCanonical s (by simpa [optFlagFree] using hf)
      simp [optToCanonical, optToLegacy, h]
termination_by os => sizeOf os

/-- Schema-list case of `toLegacy_toCanonical`. -/
theorem listToLegacy_toCanonical : ∀ l : List Schema,
    listFlagFree l = true → listToLegacy (listToCanonical l) = l
  | [], _ => by simp [listToCanonical, listToLegacy]
  | s :: rest, hf => by
      simp only [listFlagFree, Bool.and_eq_true] at hf
      have h1 := toLegacy_toCanonical s hf.1
      have h2 := listToLegacy_toCanonical rest hf.2
      simp [listToCanonical, listToLegacy, h1, h2]
termination_by l => sizeOf l

/-- Optional-schema-list case of `toLegacy_toCanonical`. -/
theorem optListToLegacy_toCanonical : ∀ ol : Option (List Schema),
    optListFlagFree ol = true → optListToLegacy (optListToCanonical ol) = ol
  | none, _ => by simp [optListToCanonical, optListToLegacy]
  | some v, hf => by
      have h := listToLegacy_toCanonical v (by simpa [optListFlagFree] using hf)
      simp [optListToCanonical, optListToLegacy, h]
termination_by ol => sizeOf ol

/-- Subschema-validation case of `toLegacy_toCanonical`. -/
theorem toLegacySub_toCanonical : ∀ sv : SubschemaValidation,
    sv.flagFree = true → sv.toCanonical.toLegacy = sv
  | .mk allOf anyOf oneOf notS ifS thenS elseS, hf => by
      simp only [SubschemaValidation.flagFree, Bool.and_eq_true] at hf
      obtain ⟨⟨⟨⟨⟨⟨h1, h2⟩, h3⟩, h4⟩, h5⟩, h6⟩, h7⟩ := hf
      have g1 := optListToLegacy_toCanonical allOf h1
      have g2 := optListToLegacy_toCanonical anyOf h2
      have g3 := optListToLegacy_toCanonical oneOf h3
      have g4 := optToLegacy_toCanonical notS h4
      have g5 := optToLegacy_toCanonical ifS h5
      have g6 := optToLegacy_toCanonical thenS h6
      have g7 := optToLegacy_toCanonical elseS h7
      simp [SubschemaValidation.toCanonical, Schemars.SubschemaValidation.toLegacy,
        g1, g2, g3, g4, g5, g6, g7]
termination_by sv => sizeOf sv

/-- `SingleOrVec` case of `toLegacy_toCanonical`. -/
theorem sovToLegacy_toCanonical : ∀ sov : SingleOrVec Schema,
    sovFlagFree sov = true → sovToLegacy (sovToCanonical sov) = sov
  | .single s, hf => by
      have h := toLegacy_toCanonical s (by simpa [sovFlagFree] using hf)
      simp [sovToCanonical, sovToLegacy, h]
  | .vec v, hf => by
      have h := listToLegacy_toCanonical v (by simpa [sovFlagFree] using hf)
      simp [sovToCanonical, sovToLegacy, h]
termination_by sov => sizeOf sov

/-- Optional-`SingleOrVec` case of `toLegacy_toCanonical`. -/
theorem optSovToLegacy_toCanonical : ∀ osov : Option (SingleOrVec Schema),
    optSovFlagFree osov = true → optSovToLegacy (optSovToCanonical osov) = osov
  | none, _ => by simp [optSovToCanonical, optSovToLegacy]
  | some sov, hf => by
      have h := sovToLegacy_toCanonical sov (by simpa [optSovFlagFree] using hf)
      simp [optSovToCanonical, optSovToLegacy, h]
termination_by osov => sizeOf osov

/-- Array-validation case of `toLegacy_toCanonical`. -/
theorem toLegacyArr_toCanonical : ∀ av : ArrayValidation,
    av.flagFree = true → av.toCanonical.toLegacy = av
  | .mk items addItems maxI minI uniq cont, hf => by
      simp only [ArrayValidation.flagFree, Bool.and_eq_true] at hf
      obtain ⟨⟨h1, h2⟩, h3⟩ := hf
      have g1 := optSovToLegacy_toCanonical items h1
      have g2 := optToLegacy_toCanonical addItems h2
      have g3 := optToLegacy_toCanonical cont h3
      simp [ArrayValidation.toCanonical, Schemars.ArrayValidation.toLegacy,
        g1, g2, g3]
termination_by av => sizeOf av

/-- Properties-map case of `toLegacy_toCanonical`. -/
theorem pairsToLegacy_toCanonical : ∀ l : List (String × Schema),
    pairsFlagFree l = true → pairsToLegacy (pairsToCanonical l) = l
  | [], _ => by simp [pairsToCanonical, pairsToLegacy]
  | (k, s) :: rest, hf => by
      simp only [pairsFlagFree, Bool.and_eq_true] at hf
      have h1 := toLegacy_toCanonical s hf.1
      have h2 := pairsToLegacy_toCanonical rest hf.2
      simp [pairsToCanonical, pairsToLegacy, h1, h2]
termination_by l => sizeOf l

/-- Object-validation case of `toLegacy_toCanonical`. -/
theorem toLegacyObjVal_toCanonical : ∀ ov : ObjectValidation,
    ov.flagFree = true → ov.toCanonical.toLegacy = ov
  | .mk maxP minP req props patProps addProps propNames, hf => by
      simp only [ObjectValidation.flagFree, Bool.and_eq_true] at hf
      obtain ⟨⟨⟨hfp, hfpp⟩, hfap⟩, hfpn⟩ := hf
      have g1 := pairsToLegacy_toCanonical props hfp
      have g2 := pairsToLegacy_toCanonical patProps hfpp
      have g3 := optToLegacy_toCanonical addProps hfap
      have g4 := optToLegacy_toCanonical propNames hfpn
      simp [ObjectValidation.toCanonical, Schemars.ObjectValidation.toLegacy,
        g1, g2, g3, g4]
termination_by ov => sizeOf ov
end

theorem objVal_tryInto_ok_inv (maxP minP : Option Nat) (req : List String)
    (props patProps : List (String × Schema)) (ap pn : Option Schema)
    (out : Schemars.ObjectValidation)
    (h : (ObjectValidation.mk maxP minP req props patProps ap pn).tryInto =
      .ok out) :
    ∃ properties patterns apc pnc,
      processProps ([], []) (convertPairs (stripProps props)) =
        (properties, []) ∧
      processProps ([], []) (convertPairs patProps) = (patterns, []) ∧
      optTryInto ap = .ok apc ∧ optTryInto pn = .ok pnc ∧
      out = .mk maxP minP (hoistReq req props) properties patterns apc pnc := by
  simp only [ObjectValidation.tryInto] at h
  rcases hpp : processProps ([], []) (convertPairs (stripProps props)) with
    ⟨properties, errs⟩
  rw [hpp] at h
  cases errs with
  | cons pe rest => obtain ⟨k, e⟩ := pe; simp at h
  | nil =>
    rcases hp2 : processProps ([], []) (convertPairs patProps) with
      ⟨patterns, errs2⟩
    rw [hp2] at h
    cases errs2 with
    | cons pe rest => obtain ⟨k, e⟩ := pe; simp at h
    | nil =>
      simp only at h
      cases hap : optTryInto ap with
      | error e => rw [hap] at h; simp at h
      | ok apc =>
        rw [hap] at h
        cases hpn : optTryInto pn with
        | error e => rw [hpn] at h; simp at h
        | ok pnc =>
          rw [hpn] at h
          simp only [ok_bind, Except.ok.injEq] at h
          exact ⟨properties, patterns, apc, pnc, rfl, rfl, rfl, rfl, h.symm⟩

theorem schemaObj_tryInto_ok_inv (md : Option Metadata)
    (it : Option (SingleOrVec InstanceType)) (fm : Option String)
    (ev : Option (List Value)) (cv : Option Value)
    (ss : Option SubschemaValidation) (nu : Option NumberValidation)
    (st : Option StringValidation) (ar : Option ArrayValidation)
    (ob : Option ObjectValidation) (rf : Option String) (rq : Option Bool)
    (ex : List (String × Value)) (out : Schemars.SchemaObject)
    (h : (SchemaObject.mk md it fm ev cv ss nu st ar ob rf rq ex).tryInto =
      .ok out) :
    rq = none ∧ ∃ ssc arc obc,
      optSubTryInto ss = .ok ssc ∧ optArrTryInto ar = .ok arc ∧
      optObjTryInto ob = .ok obc ∧
      out = .mk md it fm ev cv ssc nu st arc obc rf ex := by
  simp only [SchemaObject.tryInto] at h
  cases rq with
  | some b => simp at h
  | none =>
    simp only [Option.isSome_none, Bool.false_eq_true, if_false] at h
    refine ⟨rfl, ?_⟩
    cases hss : optSubTryInto ss with
    | error e => rw [hss] at h; simp [ctxE] at h
    | ok ssc =>
      rw [hss] at h
      simp only [ctxE, ok_bind] at h
      cases har : optArrTryInto ar with
      | error e => rw [har] at h; simp at h
      | ok arc =>
        rw [har] at h
        cases hob : optObjTryInto ob with
        | error e => rw [hob] at h; simp at h
        | ok obc =>
          rw [hob] at h
          simp only [ok_bind, Except.ok.injEq] at h
          exact ⟨ssc, arc, obc, rfl, rfl, rfl, h.symm⟩

theorem mem_setInsert_self (s : List String) (k : String) :
    k ∈ setInsert s k := by
  unfold setInsert
  split
  · next hc => exact List.elem_iff.mp hc
  · simp

theorem mem_setInsert_of_mem (s : List String) (k x : String) (h : x ∈ s) :
    x ∈ setInsert s k := by
  unfold setInsert
  split
  · exact h
  · simp [h]

theorem mem_hoistReq_of_mem (l : List (String × Schema)) (r : List String)
    (x : String) (h : x ∈ r) : x ∈ hoistReq r l := by
  induction l generalizing r with
  | nil => simpa [hoistReq] using h
  | cons p rest ih =>
    obtain ⟨k, s⟩ := p
    cases s with
    | bool b => simpa [hoistReq] using ih r h
    | obj o =>
      simp only [hoistReq]
      split
      · exact ih _ (mem_setInsert_of_mem r k x h)
      · exact ih r h

theorem mem_hoistReq_of_flag (l : List (String × Schema)) (r : List String)
    (name : String) (child : SchemaObject)
    (hmem : (name, Schema.obj child) ∈ l) (hflag : child.required = some true) :
    name ∈ hoistReq r l := by
  induction l generalizing r with
  | nil => simp at hmem
  | cons p rest ih =>
    rcases List.mem_cons.mp hmem with heq | htail
    · subst heq
      simp only [hoistReq, hflag, if_pos]
      exact mem_hoistReq_of_mem rest (setInsert r name) name
        (mem_setInsert_self r name)
    · obtain ⟨k, s⟩ := p
      cases s with
      | bool b => simpa [hoistReq] using ih r htail
      | obj o =>
        simp only [hoistReq]
        split
        · exact ih _ htail
        · exact ih r htail

theorem errsOf_nil_iff (l : List (String × Except Err Schemars.Schema)) :
    errsOf l = [] ↔ ∀ p ∈ l, ∃ v, p.2 = Except.ok v := by
  induction l with
  | nil => simp [errsOf]
  | cons p rest ih =>
    obtain ⟨k, r⟩ := p
    cases r with
    | ok v => simpa [errsOf] using ih
    | error e => simp [errsOf]

theorem mem_convertPairs (l : List (String × Schema)) (k : String) (s : Schema)
    (h : (k, s) ∈ l) : (k, s.tryInto) ∈ convertPairs l := by
  induction l with
  | nil => simp at h
  | cons p rest ih =>
    rcases List.mem_cons.mp h with heq | htail
    · subst heq; simp [convertPairs]
    · obtain ⟨k2, s2⟩ := p
      simp only [convertPairs, List.mem_cons]
      exact Or.inr (ih htail)

theorem errsOf_append_ok (pre rest : List (String × Except Err Schemars.Schema))
    (hpre : ∀ p ∈ pre, ∃ v, p.2 = Except.ok v) :
    errsOf (pre ++ rest) = errsOf rest := by
  induction pre with
  | nil => simp
  | cons p tail ih =>
    obtain ⟨k, r⟩ := p
    obtain ⟨v, hv⟩ := hpre (k, r) (by simp)
    simp only at hv
    subst hv
    simp only [List.cons_append, errsOf, List.filterMap_cons]
    exact ih (fun q hq => hpre q (by simp [hq]))

theorem errsOf_first (l pre post : List (String × Except Err Schemars.Schema))
    (k : String) (e : Err) (hl : l = pre ++ (k, Except.error e) :: post)
    (hpre : ∀ p ∈ pre, ∃ v, p.2 = Except.ok v) :
    errsOf l = (k, e) :: errsOf post := by
  subst hl
  rw [errsOf_append_ok pre _ hpre]
  simp [errsOf]

theorem convertPairs_append (l1 l2 : List (String × Schema)) :
    convertPairs (l1 ++ l2) = convertPairs l1 ++ convertPairs l2 := by
  induction l1 with
  | nil => simp [convertPairs]
  | cons p rest ih =>
    obtain ⟨k, s⟩ := p
    simp [convertPairs, ih]

theorem partitionResults_snd {α : Type} (l : List (Except Err α)) :
    (partitionResults l).2 = l.filterMap (fun r =>
      match r with
      | .error e => some e
      | .ok _ => none) := by
  induction l with
  | nil => simp [partitionResults]
  | cons r rest ih =>
    cases r with
    | ok a => simpa [partitionResults] using ih
    | error e => simp [partitionResults, ih]

theorem objVal_tryInto_err_props (maxP minP : Option Nat) (req : List String)
    (props patProps : List (String × Schema)) (ap pn : Option Schema)
    (k : String) (e : Err) (rest : List (String × Err))
    (h : errsOf (convertPairs (stripProps props)) = (k, e) :: rest) :
    (ObjectValidation.mk maxP minP req props patProps ap pn).tryInto =
      .error (("in field '" ++ k ++ "'") :: e) := by
  simp only [ObjectValidation.tryInto]
  rcases hpp : processProps ([], []) (convertPairs (stripProps props)) with
    ⟨properties, errs⟩
  have hsnd := processProps_snd [] [] (convertPairs (stripProps props))
  rw [hpp, h] at hsnd
  simp only [List.nil_append] at hsnd
  subst hsnd
  simp [Err.ctx]

theorem objVal_tryInto_err_pat (maxP minP : Option Nat) (req : List String)
    (props patProps : List (String × Schema)) (ap pn : Option Schema)
    (k : String) (e : Err) (rest : List (String × Err))
    (hprops : errsOf (convertPairs (stripProps props)) = [])
    (h : errsOf (convertPairs patProps) = (k, e) :: rest) :
    (ObjectValidation.mk maxP minP req props patProps ap pn).tryInto =
      .error (("in pattern property '" ++ k ++ "'") :: e) := by
  simp only [ObjectValidation.tryInto]
  rcases hpp : processProps ([], []) (convertPairs (stripProps props)) with
    ⟨properties, errs⟩
  have hsnd := processProps_snd [] [] (convertPairs (stripProps props))
  rw [hpp, hprops] at hsnd
  simp only [List.nil_append, List.append_nil] at hsnd
  subst hsnd
  rcases hpp2 : processProps ([], []) (convertPairs patProps) with
    ⟨patterns, errs2⟩
  have hsnd2 := processProps_snd [] [] (convertPairs patProps)
  rw [hpp2, h] at hsnd2
  simp only [List.nil_append] at hsnd2
  subst hsnd2
  simp [Err.ctx]

theorem subVal_tryInto_err_allOf (l : List Schema)
    (anyOf oneOf : Option (List Schema)) (notS ifS thenS elseS : Option Schema)
    (e : Err) (rest : List Err)
    (h : (partitionResults (listTryInto l)).2 = e :: rest) :
    (SubschemaValidation.mk (some l) anyOf oneOf notS ifS thenS elseS).tryInto =
      .error ("in 'allOf'" :: e) := by
  simp only [SubschemaValidation.tryInto, mapVecSchema]
  rcases hpr : partitionResults (listTryInto l) with ⟨oks, errs⟩
  rw [hpr] at h
  simp only at h
  subst h
  simp [foldedResult, ctxE, Err.ctx]

theorem subVal_tryInto_err_not (s : Schema) (e : Err)
    (h : s.tryInto = .error e) :
    (SubschemaValidation.mk none none none (some s) none none none).tryInto =
      .error e := by
  simp [SubschemaValidation.tryInto, mapVecSchema, foldedResult, ctxE,
    optTryInto, h]

theorem schemaObj_tryInto_err_subschemas (md : Option Metadata)
    (it : Option (SingleOrVec InstanceType)) (fm : Option String)
    (ev : Option (List Value)) (cv : Option Value)
    (sub : SubschemaValidation) (nu : Option NumberValidation)
    (st : Option StringValidation) (ar : Option ArrayValidation)
    (ob : Option ObjectValidation) (rf : Option String)
    (ex : List (String × Value)) (e : Err) (h : sub.tryInto = .error e) :
    (SchemaObject.mk md it fm ev cv (some sub) nu st ar ob rf none ex).tryInto =
      .error ("in subschemas" :: e) := by
  simp [SchemaObject.tryInto, optSubTryInto, h, ctxE, Err.ctx]

theorem arrVal_tryInto_err_items_single (s : Schema)
    (ai : Option Schema) (mx mn : Option Nat) (uq : Option Bool)
    (ct : Option Schema) (e : Err) (h : s.tryInto = .error e) :
    (ArrayValidation.mk (some (.single s)) ai mx mn uq ct).tryInto =
      .error e := by
  simp [ArrayValidation.tryInto, optSovTryInto, sovTryInto, h]

theorem schemaObj_tryInto_err_array (md : Option Metadata)
    (it : Option (SingleOrVec InstanceType)) (fm : Option String)
    (ev : Option (List Value)) (cv : Option Value)
    (nu : Option NumberValidation) (st : Option StringValidation)
    (av : ArrayValidation) (ob : Option ObjectValidation) (rf : Option String)
    (ex : List (String × Value)) (e : Err) (h : av.tryInto = .error e) :
    (SchemaObject.mk md it fm ev cv none nu st (some av) ob rf none ex).tryInto =
      .error e := by
  simp [SchemaObject.tryInto, optSubTryInto, optArrTryInto, ctxE, h]

theorem schemaObj_tryInto_err_object (md : Option Metadata)
    (it : Option (SingleOrVec InstanceType)) (fm : Option String)
    (ev : Option (List Value)) (cv : Option Value)
    (nu : Option NumberValidation) (st : Option StringValidation)
    (ov : ObjectValidation) (rf : Option String)
    (ex : List (String × Value)) (e : Err) (h : ov.tryInto = .error e) :
    (SchemaObject.mk md it fm ev cv none nu st none (some ov) rf none
      ex).tryInto = .error e := by
  simp [SchemaObject.tryInto, optSubTryInto, optArrTryInto, optObjTryInto,
    ctxE, h]

theorem convertDefs_append_err (pre post : List (String × Schema)) (k : String)
    (s : Schema) (e : Err)
    (hpre : ∀ p ∈ pre, ∃ v, (p.2).tryInto = Except.ok v)
    (hs : s.tryInto = .error e) :
    convertDefs (pre ++ (k, s) :: post) =
      .error (("in definition '" ++ k ++ "'") :: e) := by
  induction pre with
  | nil => simp [convertDefs, hs, Err.ctx]
  | cons p tail ih =>
    obtain ⟨k2, s2⟩ := p
    obtain ⟨v, hv⟩ := hpre (k2, s2) (by simp)
    simp only at hv
    simp only [List.cons_append, convertDefs, hv]
    simp only [List.append_eq]
    rw [ih (fun q hq => hpre q (by simp [hq]))]
    rfl

theorem convertDefs_ok_forall2 (l : List (String × Schema))
    (dl : List (String × Schemars.Schema)) (h : convertDefs l = .ok dl) :
    List.Forall₂ (fun p q => p.1 = q.1 ∧ (p.2).tryInto = Except.ok q.2) l dl := by
  induction l generalizing dl with
  | nil => simp only [convertDefs, Except.ok.injEq] at h; subst h; exact .nil
  | cons p rest ih =>
    obtain ⟨k, s⟩ := p
    simp only [convertDefs] at h
    cases hs : s.tryInto with
    | error e => rw [hs] at h; simp at h
    | ok c =>
      rw [hs] at h
      cases hr : convertDefs rest with
      | error e2 => rw [hr] at h; simp at h
      | ok cs =>
        rw [hr] at h
        simp only [ok_bind, Except.ok.injEq] at h
        subst h
        exact .cons ⟨rfl, hs⟩ (ih cs hr)

theorem rootSchema_tryInto_ok_inv (r : RootSchema) (out : Schemars.RootSchema)
    (h : r.tryInto = .ok out) :
    ∃ c dl, r.schema.tryInto = .ok c ∧ convertDefs r.definitions = .ok dl ∧
      out = ⟨r.meta_schema, c, dl⟩ := by
  unfold RootSchema.tryInto at h
  cases hc : r.schema.tryInto with
  | error e => rw [hc] at h; simp at h
  | ok c =>
    rw [hc] at h
    cases hd : convertDefs r.definitions with
    | error e => rw [hd] at h; simp at h
    | ok dl =>
      rw [hd] at h
      simp only [ok_bind, Except.ok.injEq] at h
      exact ⟨c, dl, rfl, rfl, h.symm⟩

/-- An otherwise-empty legacy schema object carrying `required: true`. -/
def oTrue : SchemaObject :=
  .mk none none none none none none none none none none none (some true) []

/-- An otherwise-empty legacy schema object carrying `required: false`. -/
def oFalse : SchemaObject :=
  .mk none none none none none none none none none none none (some false) []

/-- An otherwise-empty legacy schema object with no legacy flag. -/
def oPlain : SchemaObject :=
  .mk none none none none none none none none none none none none []

/-- The canonical image of `oTrue`/`oFalse`/`oPlain`. -/
def cPlain : Schemars.SchemaObject :=
  .mk none none none none none none none none none none none []

/-- C2: a schema object that itself carries the legacy `required` boolean
flag — whatever its value — fails conversion with the structural error
`found illegal "required" annotation`; it never succeeds and never
silently drops the flag. -/
theorem C2_root_required_flag_fails (o : SchemaObject) (b : Bool)
    (h : o.required = some b) : o.tryInto = .error illegalRequiredErr :=
  tryInto_of_flagged o (by simp [h])

/-- Witness for C2 at `required: true` on an otherwise-empty object. -/
theorem C2_root_required_flag_fails_witness :
    oTrue.required = some true ∧ oTrue.tryInto = .error illegalRequiredErr :=
  ⟨rfl, C2_root_required_flag_fails oTrue true rfl⟩

/-- C1: for each `(name, childSchema)` entry of a legacy object's
`properties` map, in order: a child object whose legacy `required` flag is
`true` has its name inserted into the output required set and is converted
with the flag stripped; a `false` or absent flag is stripped without
affecting the required set; in all cases the whole conversion behaves
exactly as on the pre-hoisted, pre-stripped object, so the flag itself
never makes an entry fail. -/
theorem C1_properties_hoist_and_strip (maxP minP : Option Nat)
    (req : List String) (props patProps : List (String × Schema))
    (ap pn : Option Schema) :
    (∀ out name child,
      (ObjectValidation.mk maxP minP req props patProps ap pn).tryInto =
        .ok out →
      (name, Schema.obj child) ∈ props → child.required = some true →
      name ∈ out.required) ∧
    ((ObjectValidation.mk maxP minP req props patProps ap pn).tryInto =
      (ObjectValidation.mk maxP minP (hoistReq req props) (stripProps props)
        patProps ap pn).tryInto) ∧
    (∀ (r : List String) name child rest, child.required ≠ some true →
      hoistReq r ((name, Schema.obj child) :: rest) = hoistReq r rest) := by
  refine ⟨?_, ?_, ?_⟩
  · intro out name child h hmem hflag
    obtain ⟨properties, patterns, apc, pnc, hp, hp2, hap, hpn, hout⟩ :=
      objVal_tryInto_ok_inv _ _ _ _ _ _ _ _ h
    subst hout
    simp only [Schemars.ObjectValidation.required]
    exact mem_hoistReq_of_flag props req name child hmem hflag
  · simp [ObjectValidation.tryInto, stripProps_idem, hoistReq_stripProps]
  · intro r name child rest hflag
    simp [hoistReq, hflag]

/-- Witness for C1: a single property `"y"` flagged `required: true` is
hoisted into the required set. -/
theorem C1_properties_hoist_and_strip_witness :
    (ObjectValidation.mk none none [] [("y", Schema.obj oTrue)] [] none
        none).tryInto =
      .ok (.mk none none ["y"] [("y", Schemars.Schema.obj cPlain)] [] none
        none) ∧
    "y" ∈ (Schemars.ObjectValidation.mk none none ["y"]
      [("y", Schemars.Schema.obj cPlain)] [] none none).required := by
  constructor
  · simp [ObjectValidation.tryInto, stripProps, convertPairs, Schema.tryInto,
      SchemaObject.tryInto, SchemaObject.stripRequired, processProps,
      mapInsert, hoistReq, SchemaObject.required, setInsert, optTryInto,
      optSubTryInto, optArrTryInto, optObjTryInto, ctxE, oTrue, cPlain]
  · exact (C1_properties_hoist_and_strip none none [] [("y", Schema.obj oTrue)]
      [] none none).1
      (.mk none none ["y"] [("y", Schemars.Schema.obj cPlain)] [] none none)
      "y" oTrue
      (by simp [ObjectValidation.tryInto, stripProps, convertPairs,
        Schema.tryInto, SchemaObject.tryInto, SchemaObject.stripRequired,
        processProps, mapInsert, hoistReq, SchemaObject.required, setInsert,
        optTryInto, optSubTryInto, optArrTryInto, optObjTryInto, ctxE, oTrue,
        cPlain])
      (by simp) rfl

/-- C3: explicit `required: ["x"]` plus a sibling property `"y"` flagged
`required: true` yields the required set `["x", "y"]`; hoisted names come
after the explicit ones in property-declaration order; a name required by
both mechanisms appears once. -/
theorem C3_union_order_dedup :
    ((ObjectValidation.mk none none ["x"] [("y", Schema.obj oTrue)] [] none
        none).tryInto =
      .ok (.mk none none ["x", "y"] [("y", Schemars.Schema.obj cPlain)] []
        none none)) ∧
    ((ObjectValidation.mk none none ["x"]
        [("b", Schema.obj oTrue), ("a", Schema.obj oTrue)] [] none
        none).tryInto =
      .ok (.mk none none ["x", "b", "a"]
        [("b", Schemars.Schema.obj cPlain), ("a", Schemars.Schema.obj cPlain)]
        [] none none)) ∧
    ((ObjectValidation.mk none none ["y"] [("y", Schema.obj oTrue)] [] none
        none).tryInto =
      .ok (.mk none none ["y"] [("y", Schemars.Schema.obj cPlain)] [] none
        none)) := by
  refine ⟨?_, ?_, ?_⟩ <;>
    simp [ObjectValidation.tryInto, stripProps, convertPairs, Schema.tryInto,
      SchemaObject.tryInto, SchemaObject.stripRequired, processProps,
      mapInsert, hoistReq, SchemaObject.required, setInsert, optTryInto,
      optSubTryInto, optArrTryInto, optObjTryInto, ctxE, oTrue, cPlain]

/-- C6: a successful conversion emits a `properties` map with exactly the
input's keys, in the same order (stated under the `Map` representation
invariant that the input keys are pairwise distinct). -/
theorem C6_property_keys_preserved (ov : ObjectValidation)
    (out : Schemars.ObjectValidation) (h : ov.tryInto = .ok out)
    (hnd : (ov.properties.map Prod.fst).Nodup) :
    out.properties.map Prod.fst = ov.properties.map Prod.fst := by
  cases ov with
  | mk maxP minP req props patProps ap pn =>
    obtain ⟨properties, patterns, apc, pnc, hp, hp2, hap, hpn, hout⟩ :=
      objVal_tryInto_ok_inv _ _ _ _ _ _ _ _ h
    subst hout
    simp only [ObjectValidation.properties] at hnd
    simp only [Schemars.ObjectValidation.properties, ObjectValidation.properties]
    have hkeys : (convertPairs (stripProps props)).map Prod.fst =
        props.map Prod.fst := by
      rw [convertPairs_keys, stripProps_keys]
    have hsnd := processProps_snd [] [] (convertPairs (stripProps props))
    rw [hp] at hsnd
    have hok : errsOf (convertPairs (stripProps props)) = [] := by
      simpa using hsnd.symm
    have hfst := processProps_fst_keys [] [] (convertPairs (stripProps props))
      (by simp) (by rw [hkeys]; exact hnd) hok
    rw [hp] at hfst
    simpa [hkeys] using hfst

/-- Witness for C6 at a two-property object. -/
theorem C6_property_keys_preserved_witness :
    (ObjectValidation.mk none none [] [("a", Schema.bool true),
        ("b", Schema.obj oTrue)] [] none none).tryInto =
      .ok (.mk none none ["b"] [("a", Schemars.Schema.bool true),
        ("b", Schemars.Schema.obj cPlain)] [] none none) ∧
    (Schemars.ObjectValidation.mk none none ["b"]
        [("a", Schemars.Schema.bool true), ("b", Schemars.Schema.obj cPlain)]
        [] none none).properties.map Prod.fst =
      (ObjectValidation.mk none none [] [("a", Schema.bool true),
        ("b", Schema.obj oTrue)] [] none none).properties.map Prod.fst := by
  have hconv : (ObjectValidation.mk none none [] [("a", Schema.bool true),
      ("b", Schema.obj oTrue)] [] none none).tryInto =
      .ok (.mk none none ["b"] [("a", Schemars.Schema.bool true),
        ("b", Schemars.Schema.obj cPlain)] [] none none) := by
    simp [ObjectValidation.tryInto, stripProps, convertPairs, Schema.tryInto,
      SchemaObject.tryInto, SchemaObject.stripRequired, processProps,
      mapInsert, hoistReq, SchemaObject.required, setInsert, optTryInto,
      optSubTryInto, optArrTryInto, optObjTryInto, ctxE, oTrue, cPlain]
  exact ⟨hconv, C6_property_keys_preserved _ _ hconv (by
    simp [ObjectValidation.properties])⟩

/-- C8: a successful object conversion copies the metadata, type, format,
enum, const, numeric, string, `$ref` and extension fields through
unchanged; in particular `const: null` stays present-with-null. -/
theorem C8_inert_fields_preserved (o : SchemaObject)
    (out : Schemars.SchemaObject) (h : o.tryInto = .ok out) :
    out.metadata = o.metadata ∧ out.instance_type = o.instance_type ∧
    out.format = o.format ∧ out.enum_values = o.enum_values ∧
    out.const_value = o.const_value ∧ out.number = o.number ∧
    out.string = o.string ∧ out.reference = o.reference ∧
    out.extensions = o.extensions ∧
    (o.const_value = some Value.null → out.const_value = some Value.null) := by
  cases o with
  | mk md it fm ev cv ss nu st ar ob rf rq ex =>
    obtain ⟨hrq, ssc, arc, obc, h1, h2, h3, hout⟩ :=
      schemaObj_tryInto_ok_inv _ _ _ _ _ _ _ _ _ _ _ _ _ _ h
    subst hout
    refine ⟨rfl, rfl, rfl, rfl, rfl, rfl, rfl, rfl, rfl, ?_⟩
    intro hnull
    simpa [Schemars.SchemaObject.const_value, SchemaObject.const_value]
      using hnull

/-- Witness for C8 at an object carrying `const: null`. -/
theorem C8_inert_fields_preserved_witness :
    (SchemaObject.mk none none none none (some Value.null) none none none
        none none none none []).tryInto =
      .ok (.mk none none none none (some Value.null) none none none none
        none none []) ∧
    (Schemars.SchemaObject.mk none none none none (some Value.null) none none
        none none none none []).const_value = some Value.null := by
  have hconv : (SchemaObject.mk none none none none (some Value.null) none
      none none none none none none []).tryInto =
      .ok (.mk none none none none (some Value.null) none none none none
        none none []) := by
    simp [SchemaObject.tryInto, optSubTryInto, optArrTryInto, optObjTryInto,
      ctxE]
  exact ⟨hconv, ((C8_inert_fields_preserved _ _ hconv).2.2.2.2.2.2.2.2.2)
    rfl⟩

/-- C7: on a tree with no legacy flag anywhere (and well-keyed maps),
conversion succeeds, every output field equals the corresponding input
field (the output is the field-wise copy `toCanonical`), and converting
the re-read output again returns the same value: conversion is a no-op on
its own output. -/
theorem C7_canonical_noop (s : Schema) (hf : s.flagFree = true)
    (hw : s.wfKeys = true) :
    s.tryInto = .ok s.toCanonical ∧ s.toCanonical.toLegacy = s ∧
      s.toCanonical.toLegacy.tryInto = .ok s.toCanonical := by
  have h1 := tryInto_ok_of_flagFree s hf hw
  have h2 := toLegacy_toCanonical s hf
  exact ⟨h1, h2, h2.symm ▸ h1⟩

/-- Witness for C7 on a small flag-free schema. -/
theorem C7_canonical_noop_witness :
    (Schema.obj oPlain).flagFree = true ∧ (Schema.obj oPlain).wfKeys = true ∧
    ((Schema.obj oPlain).tryInto = .ok (Schema.obj oPlain).toCanonical ∧
      (Schema.obj oPlain).toCanonical.toLegacy = Schema.obj oPlain ∧
      (Schema.obj oPlain).toCanonical.toLegacy.tryInto =
        .ok (Schema.obj oPlain).toCanonical) := by
  refine ⟨?_, ?_, ?_⟩
  · simp [Schema.flagFree, SchemaObject.flagFree, oPlain, optSubFlagFree,
      optArrFlagFree, optObjFlagFree]
  · simp [Schema.wfKeys, SchemaObject.wfKeys, oPlain, optSubWfKeys,
      optArrWfKeys, optObjWfKeys]
  · exact C7_canonical_noop (Schema.obj oPlain)
      (by simp [Schema.flagFree, SchemaObject.flagFree, oPlain,
        optSubFlagFree, optArrFlagFree, optObjFlagFree])
      (by simp [Schema.wfKeys, SchemaObject.wfKeys, oPlain, optSubWfKeys,
        optArrWfKeys, optObjWfKeys])

theorem convertPairs_mem_inv (l : List (String × Schema))
    (p : String × Except Err Schemars.Schema) (h : p ∈ convertPairs l) :
    ∃ q ∈ l, p = (q.1, (q.2).tryInto) := by
  induction l with
  | nil => simp [convertPairs] at h
  | cons q0 rest ih =>
    obtain ⟨k0, s0⟩ := q0
    simp only [convertPairs, List.mem_cons] at h
    rcases h with heq | htail
    · exact ⟨(k0, s0), by simp, heq⟩
    · obtain ⟨q, hq, hp⟩ := ih htail
      exact ⟨q, by simp [hq], hp⟩

theorem subVal_tryInto_err_anyOf (allOf : Option (List Schema))
    (ao : Option (List Schemars.Schema)) (l : List Schema)
    (oneOf : Option (List Schema)) (notS ifS thenS elseS : Option Schema)
    (e : Err) (rest : List Err) (hall : mapVecSchema allOf = .ok ao)
    (h : (partitionResults (listTryInto l)).2 = e :: rest) :
    (SubschemaValidation.mk allOf (some l) oneOf notS ifS thenS
        elseS).tryInto = .error ("in 'anyOf'" :: e) := by
  simp only [SubschemaValidation.tryInto, hall]
  rcases hpr : partitionResults (listTryInto l) with ⟨oks, errs⟩
  rw [hpr] at h
  simp only at h
  subst h
  simp [mapVecSchema, hpr, foldedResult, ctxE, Err.ctx]

theorem subVal_tryInto_err_oneOf (allOf anyOf : Option (List Schema))
    (ao an : Option (List Schemars.Schema)) (l : List Schema)
    (notS ifS thenS elseS : Option Schema) (e : Err) (rest : List Err)
    (hall : mapVecSchema allOf = .ok ao) (hany : mapVecSchema anyOf = .ok an)
    (h : (partitionResults (listTryInto l)).2 = e :: rest) :
    (SubschemaValidation.mk allOf anyOf (some l) notS ifS thenS
        elseS).tryInto = .error ("in 'oneOf'" :: e) := by
  simp only [SubschemaValidation.tryInto, hall, hany]
  rcases hpr : partitionResults (listTryInto l) with ⟨oks, errs⟩
  rw [hpr] at h
  simp only at h
  subst h
  simp [mapVecSchema, hpr, foldedResult, ctxE, Err.ctx]

theorem subVal_tryInto_err_notGen (allOf anyOf oneOf : Option (List Schema))
    (ao an oo : Option (List Schemars.Schema)) (s : Schema)
    (ifS thenS elseS : Option Schema) (e : Err)
    (hall : mapVecSchema allOf = .ok ao) (hany : mapVecSchema anyOf = .ok an)
    (hone : mapVecSchema oneOf = .ok oo) (hs : s.tryInto = .error e) :
    (SubschemaValidation.mk allOf anyOf oneOf (some s) ifS thenS
        elseS).tryInto = .error e := by
  simp [SubschemaValidation.tryInto, hall, hany, hone, ctxE, optTryInto, hs]

theorem subVal_tryInto_err_if (allOf anyOf oneOf : Option (List Schema))
    (ao an oo : Option (List Schemars.Schema)) (notS : Option Schema)
    (nt : Option Schemars.Schema) (s : Schema) (thenS elseS : Option Schema)
    (e : Err) (hall : mapVecSchema allOf = .ok ao)
    (hany : mapVecSchema anyOf = .ok an) (hone : mapVecSchema oneOf = .ok oo)
    (hnot : optTryInto notS = .ok nt) (hs : s.tryInto = .error e) :
    (SubschemaValidation.mk allOf anyOf oneOf notS (some s) thenS
        elseS).tryInto = .error e := by
  simp [SubschemaValidation.tryInto, hall, hany, hone, hnot, ctxE,
    optTryInto, hs]

theorem subVal_tryInto_err_then (allOf anyOf oneOf : Option (List Schema))
    (ao an oo : Option (List Schemars.Schema)) (notS ifS : Option Schema)
    (nt ic : Option Schemars.Schema) (s : Schema) (elseS : Option Schema)
    (e : Err) (hall : mapVecSchema allOf = .ok ao)
    (hany : mapVecSchema anyOf = .ok an) (hone : mapVecSchema oneOf = .ok oo)
    (hnot : optTryInto notS = .ok nt) (hif : optTryInto ifS = .ok ic)
    (hs : s.tryInto = .error e) :
    (SubschemaValidation.mk allOf anyOf oneOf notS ifS (some s)
        elseS).tryInto = .error e := by
  simp [SubschemaValidation.tryInto, hall, hany, hone, hnot, hif, ctxE,
    optTryInto, hs]

theorem subVal_tryInto_err_else (allOf anyOf oneOf : Option (List Schema))
    (ao an oo : Option (List Schemars.Schema)) (notS ifS thenS : Option Schema)
    (nt ic tc : Option Schemars.Schema) (s : Schema) (e : Err)
    (hall : mapVecSchema allOf = .ok ao) (hany : mapVecSchema anyOf = .ok an)
    (hone : mapVecSchema oneOf = .ok oo) (hnot : optTryInto notS = .ok nt)
    (hif : optTryInto ifS = .ok ic) (hthen : optTryInto thenS = .ok tc)
    (hs : s.tryInto = .error e) :
    (SubschemaValidation.mk allOf anyOf oneOf notS ifS thenS
        (some s)).tryInto = .error e := by
  simp [SubschemaValidation.tryInto, hall, hany, hone, hnot, hif, hthen,
    ctxE, optTryInto, hs]

theorem arrVal_tryInto_err_items_vec (l : List Schema) (ai : Option Schema)
    (mx mn : Option Nat) (uq : Option Bool) (ct : Option Schema) (e : Err)
    (rest : List Err) (h : (partitionResults (listTryInto l)).2 = e :: rest) :
    (ArrayValidation.mk (some (.vec l)) ai mx mn uq ct).tryInto =
      .error e := by
  simp only [ArrayValidation.tryInto, optSovTryInto, sovTryInto]
  rcases hpr : partitionResults (listTryInto l) with ⟨oks, errs⟩
  rw [hpr] at h
  simp only at h
  subst h
  simp [foldedResult]

theorem arrVal_tryInto_err_additional_items
    (items : Option (SingleOrVec Schema))
    (it : Option (SingleOrVec Schemars.Schema)) (s : Schema)
    (mx mn : Option Nat) (uq : Option Bool) (ct : Option Schema) (e : Err)
    (hit : optSovTryInto items = .ok it) (hs : s.tryInto = .error e) :
    (ArrayValidation.mk items (some s) mx mn uq ct).tryInto = .error e := by
  simp [ArrayValidation.tryInto, hit, optTryInto, hs]

theorem arrVal_tryInto_err_contains (items : Option (SingleOrVec Schema))
    (it : Option (SingleOrVec Schemars.Schema)) (ai : Option Schema)
    (aic : Option Schemars.Schema) (mx mn : Option Nat) (uq : Option Bool)
    (s : Schema) (e : Err) (hit : optSovTryInto items = .ok it)
    (hai : optTryInto ai = .ok aic) (hs : s.tryInto = .error e) :
    (ArrayValidation.mk items ai mx mn uq (some s)).tryInto = .error e := by
  simp [ArrayValidation.tryInto, hit, hai, optTryInto, hs]

theorem objVal_tryInto_err_addProps (maxP minP : Option Nat)
    (req : List String) (props patProps : List (String × Schema)) (s : Schema)
    (pn : Option Schema) (e : Err)
    (h1 : errsOf (convertPairs (stripProps props)) = [])
    (h2 : errsOf (convertPairs patProps) = []) (hs : s.tryInto = .error e) :
    (ObjectValidation.mk maxP minP req props patProps (some s) pn).tryInto =
      .error e := by
  simp only [ObjectValidation.tryInto]
  rcases hpp : processProps ([], []) (convertPairs (stripProps props)) with
    ⟨properties, errs⟩
  have hsnd := processProps_snd [] [] (convertPairs (stripProps props))
  rw [hpp, h1] at hsnd
  simp only [List.nil_append, List.append_nil] at hsnd
  subst hsnd
  rcases hpp2 : processProps ([], []) (convertPairs patProps) with
    ⟨patterns, errs2⟩
  have hsnd2 := processProps_snd [] [] (convertPairs patProps)
  rw [hpp2, h2] at hsnd2
  simp only [List.nil_append, List.append_nil] at hsnd2
  subst hsnd2
  simp [optTryInto, hs]

theorem objVal_tryInto_err_propNames (maxP minP : Option Nat)
    (req : List String) (props patProps : List (String × Schema))
    (ap : Option Schema) (apc : Option Schemars.Schema) (s : Schema) (e : Err)
    (h1 : errsOf (convertPairs (stripProps props)) = [])
    (h2 : errsOf (convertPairs patProps) = [])
    (hap : optTryInto ap = .ok apc) (hs : s.tryInto = .error e) :
    (ObjectValidation.mk maxP minP req props patProps ap (some s)).tryInto =
      .error e := by
  simp only [ObjectValidation.tryInto]
  rcases hpp : processProps ([], []) (convertPairs (stripProps props)) with
    ⟨properties, errs⟩
  have hsnd := processProps_snd [] [] (convertPairs (stripProps props))
  rw [hpp, h1] at hsnd
  simp only [List.nil_append, List.append_nil] at hsnd
  subst hsnd
  rcases hpp2 : processProps ([], []) (convertPairs patProps) with
    ⟨patterns, errs2⟩
  have hsnd2 := processProps_snd [] [] (convertPairs patProps)
  rw [hpp2, h2] at hsnd2
  simp only [List.nil_append, List.append_nil] at hsnd2
  subst hsnd2
  simp [hap, optTryInto, hs]

theorem errsOf_flagged_pattern_first (patProps pre post : List (String × Schema))
    (k : String) (child : SchemaObject)
    (hsplit : patProps = pre ++ (k, Schema.obj child) :: post)
    (hpre : ∀ p ∈ pre, ∃ v, (p.2).tryInto = Except.ok v)
    (hflag : child.required.isSome) :
    errsOf (convertPairs patProps) =
      (k, illegalRequiredErr) :: errsOf (convertPairs post) := by
  have hbase : (Schema.obj child).tryInto = .error illegalRequiredErr := by
    simp [Schema.tryInto, tryInto_of_flagged child hflag]
  subst hsplit
  have hshape : convertPairs (pre ++ (k, Schema.obj child) :: post) =
      convertPairs pre ++ (k, (Schema.obj child).tryInto) :: convertPairs post := by
    rw [convertPairs_append]
    simp [convertPairs]
  rw [hshape, hbase]
  refine errsOf_first _ (convertPairs pre) (convertPairs post) k
    illegalRequiredErr rfl ?_
  intro p hp
  obtain (list_q) := convertPairs_mem_inv pre p hp
  obtain ⟨q, hq, hpq⟩ := list_q
  obtain ⟨v, hv⟩ := hpre q hq
  exact ⟨v, by rw [hpq]; simpa using hv⟩

/-- Counterexample to C4: a `patternProperties` child carrying
`required: false` is NOT stripped — the conversion fails (wrapped
"in pattern property '^x-'") instead of proceeding on a stripped child as
the claim states. -/
theorem C4_counterexample :
    (ObjectValidation.mk none none [] [] [("^x-", Schema.obj oFalse)] none
        none).tryInto =
      .error ["in pattern property '^x-'",
        "found illegal \"required\" annotation"] ∧
    (ObjectValidation.mk none none [] []
        [("^x-", Schema.obj oFalse.stripRequired)] none none).tryInto =
      .ok (.mk none none [] [] [("^x-", Schemars.Schema.obj cPlain)] none
        none) := by
  constructor <;>
    simp [ObjectValidation.tryInto, stripProps, convertPairs, Schema.tryInto,
      SchemaObject.tryInto, SchemaObject.stripRequired, processProps,
      mapInsert, hoistReq, SchemaObject.required, setInsert, optTryInto,
      optSubTryInto, optArrTryInto, optObjTryInto, ctxE, Err.ctx, oFalse,
      cPlain]

/-- C4 (amended): `patternProperties` entries are converted recursively
like `properties` entries but WITHOUT flag stripping — a child carrying
the legacy flag (true or false) makes the conversion fail, and when that
child is the first failing pattern entry the failure is the illegal-flag
error wrapped as "in pattern property 'k'" — and `patternProperties`
entries never contribute any name to the enclosing object's required
set. -/
theorem C4_pattern_properties_amended (maxP minP : Option Nat)
    (req : List String) (props patProps : List (String × Schema))
    (ap pn : Option Schema) :
    (∀ out,
      (ObjectValidation.mk maxP minP req props patProps ap pn).tryInto =
        .ok out →
      out.required = hoistReq req props) ∧
    (∀ k child, (k, Schema.obj child) ∈ patProps → child.required.isSome →
      ∀ out,
        (ObjectValidation.mk maxP minP req props patProps ap pn).tryInto ≠
          .ok out) ∧
    (∀ (pre post : List (String × Schema)) (k : String)
        (child : SchemaObject),
      errsOf (convertPairs (stripProps props)) = [] →
      patProps = pre ++ (k, Schema.obj child) :: post →
      (∀ p ∈ pre, ∃ v, (p.2).tryInto = Except.ok v) →
      child.required.isSome →
      (ObjectValidation.mk maxP minP req props patProps ap pn).tryInto =
        .error (("in pattern property '" ++ k ++ "'") ::
          illegalRequiredErr)) := by
  refine ⟨?_, ?_, ?_⟩
  · intro out h
    obtain ⟨properties, patterns, apc, pnc, hp, hp2, hap, hpn, hout⟩ :=
      objVal_tryInto_ok_inv _ _ _ _ _ _ _ _ h
    subst hout
    rfl
  · intro k child hmem hflag out h
    obtain ⟨properties, patterns, apc, pnc, hp, hp2, hap, hpn, hout⟩ :=
      objVal_tryInto_ok_inv _ _ _ _ _ _ _ _ h
    have hsnd := processProps_snd [] [] (convertPairs patProps)
    rw [hp2] at hsnd
    have hok : errsOf (convertPairs patProps) = [] := by simpa using hsnd.symm
    have hmem2 := mem_convertPairs patProps k (Schema.obj child) hmem
    obtain ⟨v, hv⟩ := (errsOf_nil_iff _).mp hok _ hmem2
    simp only at hv
    rw [Schema.tryInto, tryInto_of_flagged child hflag] at hv
    simp at hv
  · intro pre post k child hprops hsplit hpre hflag
    have herrs := errsOf_flagged_pattern_first patProps pre post k child
      hsplit hpre hflag
    exact objVal_tryInto_err_pat maxP minP req props patProps ap pn k
      illegalRequiredErr (errsOf (convertPairs post)) hprops herrs

/-- Witness for the amended C4: both conjuncts applied at a concrete
object whose pattern property `"^x-"` carries `required: true`. -/
theorem C4_pattern_properties_amended_witness :
    (ObjectValidation.mk none none [] [("p", Schema.bool true)]
        [("^x-", Schema.obj oTrue)] none none).tryInto ≠
      .ok (.mk none none [] [("p", Schemars.Schema.bool true)] [] none
        none) ∧
    ("^x-", Schema.obj oTrue) ∈ [("^x-", Schema.obj oTrue)] ∧
    oTrue.required.isSome = true := by
  refine ⟨?_, by simp, rfl⟩
  exact (C4_pattern_properties_amended none none []
      [("p", Schema.bool true)] [("^x-", Schema.obj oTrue)] none none).2.1
    "^x-" oTrue (by simp) rfl
    (.mk none none [] [("p", Schemars.Schema.bool true)] [] none none)

/-- Counterexample to C5: a conversion failure nested under `items` (and
likewise `not`/`contains`/`additionalProperties`/...) is returned with NO
path breadcrumb at all — the error chain is just the base message — so not
every nested failure is wrapped with a breadcrumb naming the keyword. -/
theorem C5_counterexample :
    (SchemaObject.mk none none none none none none none none
        (some (.mk (some (.single (Schema.obj oFalse))) none none none none
          none)) none none none []).tryInto =
      .error ["found illegal \"required\" annotation"] := by
  simp [SchemaObject.tryInto, optSubTryInto, optArrTryInto, optObjTryInto,
    ArrayValidation.tryInto, optSovTryInto, sovTryInto, Schema.tryInto,
    ctxE, oFalse, optTryInto]

/-- C5 (amended): the engine returns the first error in iteration order
and produces no partial output; errors through `properties`,
`patternProperties`, the `allOf`/`anyOf`/`oneOf` lists and the subschemas
group are wrapped with the breadcrumbs "in field 'k'",
"in pattern property 'k'", "in 'allOf'" / "in 'anyOf'" / "in 'oneOf'",
"in subschemas", while errors through the single-nested-schema keywords —
`not`/`if`/`then`/`else`, `items` (single or list), `additionalItems`,
`contains`, `additionalProperties`, `propertyNames` — propagate without an
added breadcrumb. -/
theorem C5_first_error_and_breadcrumbs_amended :
    (∀ (l pre post : List (String × Except Err Schemars.Schema)) (k : String)
        (e : Err),
      l = pre ++ (k, Except.error e) :: post →
      (∀ p ∈ pre, ∃ v, p.2 = Except.ok v) →
      errsOf l = (k, e) :: errsOf post) ∧
    (∀ (maxP minP : Option Nat) (req : List String)
        (props patProps : List (String × Schema)) (ap pn : Option Schema)
        (k : String) (e : Err) (rest : List (String × Err)),
      errsOf (convertPairs (stripProps props)) = (k, e) :: rest →
      (ObjectValidation.mk maxP minP req props patProps ap pn).tryInto =
        .error (("in field '" ++ k ++ "'") :: e)) ∧
    (∀ (maxP minP : Option Nat) (req : List String)
        (props patProps : List (String × Schema)) (ap pn : Option Schema)
        (k : String) (e : Err) (rest : List (String × Err)),
      errsOf (convertPairs (stripProps props)) = [] →
      errsOf (convertPairs patProps) = (k, e) :: rest →
      (ObjectValidation.mk maxP minP req props patProps ap pn).tryInto =
        .error (("in pattern property '" ++ k ++ "'") :: e)) ∧
    (∀ (l : List Schema) (anyOf oneOf : Option (List Schema))
        (notS ifS thenS elseS : Option Schema) (e : Err) (rest : List Err),
      (partitionResults (listTryInto l)).2 = e :: rest →
      (SubschemaValidation.mk (some l) anyOf oneOf notS ifS thenS
          elseS).tryInto = .error ("in 'allOf'" :: e)) ∧
    (∀ (md : Option Metadata) (it : Option (SingleOrVec InstanceType))
        (fm : Option String) (ev : Option (List Value)) (cv : Option Value)
        (sub : SubschemaValidation) (nu : Option NumberValidation)
        (st : Option StringValidation) (ar : Option ArrayValidation)
        (ob : Option ObjectValidation) (rf : Option String)
        (ex : List (String × Value)) (e : Err),
      sub.tryInto = .error e →
      (SchemaObject.mk md it fm ev cv (some sub) nu st ar ob rf none
          ex).tryInto = .error ("in subschemas" :: e)) ∧
    (∀ (md : Option Metadata) (it : Option (SingleOrVec InstanceType))
        (fm : Option String) (ev : Option (List Value)) (cv : Option Value)
        (nu : Option NumberValidation) (st : Option StringValidation)
        (rf : Option String) (ex : List (String × Value)) (s : Schema)
        (ai : Option Schema) (mx mn : Option Nat) (uq : Option Bool)
        (ct : Option Schema) (e : Err),
      s.tryInto = .error e →
      (SchemaObject.mk md it fm ev cv none nu st
          (some (.mk (some (.single s)) ai mx mn uq ct)) none rf none
          ex).tryInto = .error e) ∧
    (∀ (allOf : Option (List Schema)) (ao : Option (List Schemars.Schema))
        (l : List Schema) (oneOf : Option (List Schema))
        (notS ifS thenS elseS : Option Schema) (e : Err) (rest : List Err),
      mapVecSchema allOf = .ok ao →
      (partitionResults (listTryInto l)).2 = e :: rest →
      (SubschemaValidation.mk allOf (some l) oneOf notS ifS thenS
          elseS).tryInto = .error ("in 'anyOf'" :: e)) ∧
    (∀ (allOf anyOf : Option (List Schema))
        (ao an : Option (List Schemars.Schema)) (l : List Schema)
        (notS ifS thenS elseS : Option Schema) (e : Err) (rest : List Err),
      mapVecSchema allOf = .ok ao → mapVecSchema anyOf = .ok an →
      (partitionResults (listTryInto l)).2 = e :: rest →
      (SubschemaValidation.mk allOf anyOf (some l) notS ifS thenS
          elseS).tryInto = .error ("in 'oneOf'" :: e)) ∧
    (∀ (allOf anyOf oneOf : Option (List Schema))
        (ao an oo : Option (List Schemars.Schema)) (s : Schema)
        (ifS thenS elseS : Option Schema) (e : Err),
      mapVecSchema allOf = .ok ao → mapVecSchema anyOf = .ok an →
      mapVecSchema oneOf = .ok oo → s.tryInto = .error e →
      (SubschemaValidation.mk allOf anyOf oneOf (some s) ifS thenS
          elseS).tryInto = .error e) ∧
    (∀ (allOf anyOf oneOf : Option (List Schema))
        (ao an oo : Option (List Schemars.Schema)) (notS : Option Schema)
        (nt : Option Schemars.Schema) (s : Schema)
        (thenS elseS : Option Schema) (e : Err),
      mapVecSchema allOf = .ok ao → mapVecSchema anyOf = .ok an →
      mapVecSchema oneOf = .ok oo → optTryInto notS = .ok nt →
      s.tryInto = .error e →
      (SubschemaValidation.mk allOf anyOf oneOf notS (some s) thenS
          elseS).tryInto = .error e) ∧
    (∀ (allOf anyOf oneOf : Option (List Schema))
        (ao an oo : Option (List Schemars.Schema)) (notS ifS : Option Schema)
        (nt ic : Option Schemars.Schema) (s : Schema) (elseS : Option Schema)
        (e : Err),
      mapVecSchema allOf = .ok ao → mapVecSchema anyOf = .ok an →
      mapVecSchema oneOf = .ok oo → optTryInto notS = .ok nt →
      optTryInto ifS = .ok ic → s.tryInto = .error e →
      (SubschemaValidation.mk allOf anyOf oneOf notS ifS (some s)
          elseS).tryInto = .error e) ∧
    (∀ (allOf anyOf oneOf : Option (List Schema))
        (ao an oo : Option (List Schemars.Schema))
        (notS ifS thenS : Option Schema) (nt ic tc : Option Schemars.Schema)
        (s : Schema) (e : Err),
      mapVecSchema allOf = .ok ao → mapVecSchema anyOf = .ok an →
      mapVecSchema oneOf = .ok oo → optTryInto notS = .ok nt →
      optTryInto ifS = .ok ic → optTryInto thenS = .ok tc →
      s.tryInto = .error e →
      (SubschemaValidation.mk allOf anyOf oneOf notS ifS thenS
          (some s)).tryInto = .error e) ∧
    (∀ (l : List Schema) (ai : Option Schema) (mx mn : Option Nat)
        (uq : Option Bool) (ct : Option Schema) (e : Err) (rest : List Err),
      (partitionResults (listTryInto l)).2 = e :: rest →
      (ArrayValidation.mk (some (.vec l)) ai mx mn uq ct).tryInto =
        .error e) ∧
    (∀ (items : Option (SingleOrVec Schema))
        (it : Option (SingleOrVec Schemars.Schema)) (s : Schema)
        (mx mn : Option Nat) (uq : Option Bool) (ct : Option Schema)
        (e : Err),
      optSovTryInto items = .ok it → s.tryInto = .error e →
      (ArrayValidation.mk items (some s) mx mn uq ct).tryInto = .error e) ∧
    (∀ (items : Option (SingleOrVec Schema))
        (it : Option (SingleOrVec Schemars.Schema)) (ai : Option Schema)
        (aic : Option Schemars.Schema) (mx mn : Option Nat)
        (uq : Option Bool) (s : Schema) (e : Err),
      optSovTryInto items = .ok it → optTryInto ai = .ok aic →
      s.tryInto = .error e →
      (ArrayValidation.mk items ai mx mn uq (some s)).tryInto = .error e) ∧
    (∀ (maxP minP : Option Nat) (req : List String)
        (props patProps : List (String × Schema)) (s : Schema)
        (pn : Option Schema) (e : Err),
      errsOf (convertPairs (stripProps props)) = [] →
      errsOf (convertPairs patProps) = [] → s.tryInto = .error e →
      (ObjectValidation.mk maxP minP req props patProps (some s)
          pn).tryInto = .error e) ∧
    (∀ (maxP minP : Option Nat) (req : List String)
        (props patProps : List (String × Schema)) (ap : Option Schema)
        (apc : Option Schemars.Schema) (s : Schema) (e : Err),
      errsOf (convertPairs (stripProps props)) = [] →
      errsOf (convertPairs patProps) = [] → optTryInto ap = .ok apc →
      s.tryInto = .error e →
      (ObjectValidation.mk maxP minP req props patProps ap
          (some s)).tryInto = .error e) := by
  refine ⟨?_, ?_, ?_, ?_, ?_, ?_, ?_, ?_, ?_, ?_, ?_, ?_, ?_, ?_, ?_, ?_,
    ?_⟩
  · intro l pre post k e hl hpre
    exact errsOf_first l pre post k e hl hpre
  · intro maxP minP req props patProps ap pn k e rest h
    exact objVal_tryInto_err_props maxP minP req props patProps ap pn k e
      rest h
  · intro maxP minP req props patProps ap pn k e rest h1 h2
    exact objVal_tryInto_err_pat maxP minP req props patProps ap pn k e rest
      h1 h2
  · intro l anyOf oneOf notS ifS thenS elseS e rest h
    exact subVal_tryInto_err_allOf l anyOf oneOf notS ifS thenS elseS e rest h
  · intro md it fm ev cv sub nu st ar ob rf ex e h
    exact schemaObj_tryInto_err_subschemas md it fm ev cv sub nu st ar ob rf
      ex e h
  · intro md it fm ev cv nu st rf ex s ai mx mn uq ct e h
    exact schemaObj_tryInto_err_array md it fm ev cv nu st
      (.mk (some (.single s)) ai mx mn uq ct) none rf ex e
      (arrVal_tryInto_err_items_single s ai mx mn uq ct e h)
  · intro allOf ao l oneOf notS ifS thenS elseS e rest hall h
    exact subVal_tryInto_err_anyOf allOf ao l oneOf notS ifS thenS elseS e
      rest hall h
  · intro allOf anyOf ao an l notS ifS thenS elseS e rest hall hany h
    exact subVal_tryInto_err_oneOf allOf anyOf ao an l notS ifS thenS elseS
      e rest hall hany h
  · intro allOf anyOf oneOf ao an oo s ifS thenS elseS e hall hany hone hs
    exact subVal_tryInto_err_notGen allOf anyOf oneOf ao an oo s ifS thenS
      elseS e hall hany hone hs
  · intro allOf anyOf oneOf ao an oo notS nt s thenS elseS e hall hany hone
      hnot hs
    exact subVal_tryInto_err_if allOf anyOf oneOf ao an oo notS nt s thenS
      elseS e hall hany hone hnot hs
  · intro allOf anyOf oneOf ao an oo notS ifS nt ic s elseS e hall hany hone
      hnot hif hs
    exact subVal_tryInto_err_then allOf anyOf oneOf ao an oo notS ifS nt ic
      s elseS e hall hany hone hnot hif hs
  · intro allOf anyOf oneOf ao an oo notS ifS thenS nt ic tc s e hall hany
      hone hnot hif hthen hs
    exact subVal_tryInto_err_else allOf anyOf oneOf ao an oo notS ifS thenS
      nt ic tc s e hall hany hone hnot hif hthen hs
  · intro l ai mx mn uq ct e rest h
    exact arrVal_tryInto_err_items_vec l ai mx mn uq ct e rest h
  · intro items it s mx mn uq ct e hit hs
    exact arrVal_tryInto_err_additional_items items it s mx mn uq ct e hit hs
  · intro items it ai aic mx mn uq s e hit hai hs
    exact arrVal_tryInto_err_contains items it ai aic mx mn uq s e hit hai hs
  · intro maxP minP req props patProps s pn e h1 h2 hs
    exact objVal_tryInto_err_addProps maxP minP req props patProps s pn e h1
      h2 hs
  · intro maxP minP req props patProps ap apc s e h1 h2 hap hs
    exact objVal_tryInto_err_propNames maxP minP req props patProps ap apc s
      e h1 h2 hap hs

/-- Witness for the amended C5: a property whose (stripped) child fails in
its own subschemas produces the first error, wrapped
"in field 'bad'" then "in subschemas". -/
theorem C5_first_error_and_breadcrumbs_amended_witness :
    errsOf (convertPairs (stripProps [("bad", Schema.obj (.mk none none none
        none none (some (.mk none none none (some (Schema.obj oTrue)) none
          none none)) none none none none none none []))])) =
      [("bad", ["in subschemas", "found illegal \"required\" annotation"])] ∧
    (ObjectValidation.mk none none [] [("bad", Schema.obj (.mk none none
        none none none (some (.mk none none none (some (Schema.obj oTrue))
          none none none)) none none none none none none []))] [] none
        none).tryInto =
      .error ["in field 'bad'", "in subschemas",
        "found illegal \"required\" annotation"] := by
  have heval : errsOf (convertPairs (stripProps [("bad", Schema.obj (.mk none
      none none none none (some (.mk none none none (some (Schema.obj oTrue))
        none none none)) none none none none none none []))])) =
      [("bad", ["in subschemas", "found illegal \"required\" annotation"])] := by
    simp [errsOf, convertPairs, stripProps, Schema.tryInto,
      SchemaObject.tryInto, SchemaObject.stripRequired, optSubTryInto,
      SubschemaValidation.tryInto, mapVecSchema, optTryInto, ctxE, oTrue,
      Err.ctx, optArrTryInto, optObjTryInto]
  refine ⟨heval, ?_⟩
  exact (C5_first_error_and_breadcrumbs_amended).2.1 none none [] _ [] none
    none "bad" ["in subschemas", "found illegal \"required\" annotation"] []
    heval

/-- C9 (spec-modelled `RootSchema` conversion): the root's schema object is
converted, the meta-schema identifier is copied through unchanged, every
definitions entry is converted recursively, and the first failing
definition short-circuits the conversion with the defining name as path
context. -/
theorem C9_root_conversion (r : RootSchema) :
    (∀ e, r.schema.tryInto = .error e → r.tryInto = .error e) ∧
    (∀ out, r.tryInto = .ok out →
      out.meta_schema = r.meta_schema ∧ r.schema.tryInto = .ok out.schema ∧
      List.Forall₂ (fun p q => p.1 = q.1 ∧ (p.2).tryInto = Except.ok q.2)
        r.definitions out.definitions) ∧
    (∀ (pre post : List (String × Schema)) (k : String) (s : Schema)
        (e : Err) (c : Schemars.SchemaObject),
      r.definitions = pre ++ (k, s) :: post →
      (∀ p ∈ pre, ∃ v, (p.2).tryInto = Except.ok v) →
      s.tryInto = .error e → r.schema.tryInto = .ok c →
      r.tryInto = .error (("in definition '" ++ k ++ "'") :: e)) := by
  refine ⟨?_, ?_, ?_⟩
  · intro e h
    unfold RootSchema.tryInto
    simp [h]
  · intro out h
    obtain ⟨c, dl, hc, hd, hout⟩ := rootSchema_tryInto_ok_inv r out h
    subst hout
    exact ⟨rfl, hc, convertDefs_ok_forall2 _ _ hd⟩
  · intro pre post k s e c hdefs hpre hs hc
    unfold RootSchema.tryInto
    rw [hc]
    simp only [ok_bind]
    rw [hdefs, convertDefs_append_err pre post k s e hpre hs]
    simp only [error_bind]

/-- Witness for C9: a one-definition root converts with the meta-schema
copied through. -/
theorem C9_root_conversion_witness :
    (RootSchema.mk (some "meta") oPlain [("d", Schema.obj oPlain)]).tryInto =
      .ok (Schemars.RootSchema.mk (some "meta") cPlain
        [("d", Schemars.Schema.obj cPlain)]) ∧
    (Schemars.RootSchema.mk (some "meta") cPlain
        [("d", Schemars.Schema.obj cPlain)]).meta_schema =
      (RootSchema.mk (some "meta") oPlain
        [("d", Schema.obj oPlain)]).meta_schema := by
  have hconv : (RootSchema.mk (some "meta") oPlain
      [("d", Schema.obj oPlain)]).tryInto =
      .ok (Schemars.RootSchema.mk (some "meta") cPlain
        [("d", Schemars.Schema.obj cPlain)]) := by
    simp [RootSchema.tryInto, convertDefs, Schema.tryInto,
      SchemaObject.tryInto, optSubTryInto, optArrTryInto, optObjTryInto,
      ctxE, oPlain, cPlain]
  exact ⟨hconv,
    ((C9_root_conversion (RootSchema.mk (some "meta") oPlain
      [("d", Schema.obj oPlain)])).2.1 _ hconv).1⟩

/-- The nested positions, other than a direct `properties` entry, in which
a schema can sit inside an enclosing schema object. -/
inductive FlagPosition where
  | inAllOf | inAnyOf | inOneOf | inNot | inIf | inThen | inElse
  | inItemsSingle | inItemsVec | inAdditionalItems | inContains
  | inAdditionalProperties | inPropertyNames | inPatternProperties

/-- An enclosing schema object holding the given schema at exactly the
given nested position (all the other keywords empty; the pattern-property
key is `"p"`). -/
def placeFlagged (pos : FlagPosition) (s : Schema) : SchemaObject :=
  match pos with
  | .inAllOf => .mk none none none none none
      (some (.mk (some [s]) none none none none none none)) none none none
      none none none []
  | .inAnyOf => .mk none none none none none
      (some (.mk none (some [s]) none none none none none)) none none none
      none none none []
  | .inOneOf => .mk none none none none none
      (some (.mk none none (some [s]) none none none none)) none none none
      none none none []
  | .inNot => .mk none none none none none
      (some (.mk none none none (some s) none none none)) none none none
      none none none []
  | .inIf => .mk none none none none none
      (some (.mk none none none none (some s) none none)) none none none
      none none none []
  | .inThen => .mk none none none none none
      (some (.mk none none none none none (some s) none)) none none none
      none none none []
  | .inElse => .mk none none none none none
      (some (.mk none none none none none none (some s))) none none none
      none none none []
  | .inItemsSingle => .mk none none none none none none none none
      (some (.mk (some (.single s)) none none none none none)) none none
      none []
  | .inItemsVec => .mk none none none none none none none none
      (some (.mk (some (.vec [s])) none none none none none)) none none
      none []
  | .inAdditionalItems => .mk none none none none none none none none
      (some (.mk none (some s) none none none none)) none none none []
  | .inContains => .mk none none none none none none none none
      (some (.mk none none none none none (some s))) none none none []
  | .inAdditionalProperties => .mk none none none none none none none none
      none (some (.mk none none [] [] [] (some s) none)) none none []
  | .inPropertyNames => .mk none none none none none none none none none
      (some (.mk none none [] [] [] none (some s))) none none []
  | .inPatternProperties => .mk none none none none none none none none none
      (some (.mk none none [] [] [("p", s)] none none)) none none []

/-- C10: a schema object carrying the legacy `required` flag (true or
false) in any nested position other than a direct `properties` entry —
allOf/anyOf/oneOf, not/if/then/else, items/additionalItems/contains,
additionalProperties/propertyNames, or a patternProperties entry — makes
the enclosing conversion fail with the `found illegal "required"
annotation` error (under zero or more context wrappers); flag stripping
happens only for direct properties entries. -/
theorem C10_flag_outside_properties_fails (pos : FlagPosition)
    (o : SchemaObject) (h : o.required.isSome = true) :
    ∃ ctxs, (placeFlagged pos (Schema.obj o)).tryInto =
      .error (ctxs ++ illegalRequiredErr) := by
  have hbase : (Schema.obj o).tryInto = .error illegalRequiredErr := by
    simp [Schema.tryInto, tryInto_of_flagged o h]
  cases pos with
  | inAllOf =>
    exact ⟨["in subschemas", "in 'allOf'"], by
      simp [placeFlagged, SchemaObject.tryInto, optSubTryInto,
        SubschemaValidation.tryInto, mapVecSchema, listTryInto,
        partitionResults, foldedResult, ctxE, optTryInto, hbase, Err.ctx,
        illegalRequiredErr]⟩
  | inAnyOf =>
    exact ⟨["in subschemas", "in 'anyOf'"], by
      simp [placeFlagged, SchemaObject.tryInto, optSubTryInto,
        SubschemaValidation.tryInto, mapVecSchema, listTryInto,
        partitionResults, foldedResult, ctxE, optTryInto, hbase, Err.ctx,
        illegalRequiredErr]⟩
  | inOneOf =>
    exact ⟨["in subschemas", "in 'oneOf'"], by
      simp [placeFlagged, SchemaObject.tryInto, optSubTryInto,
        SubschemaValidation.tryInto, mapVecSchema, listTryInto,
        partitionResults, foldedResult, ctxE, optTryInto, hbase, Err.ctx,
        illegalRequiredErr]⟩
  | inNot =>
    exact ⟨["in subschemas"], by
      simp [placeFlagged, SchemaObject.tryInto, optSubTryInto,
        SubschemaValidation.tryInto, mapVecSchema, listTryInto,
        partitionResults, foldedResult, ctxE, optTryInto, hbase, Err.ctx,
        illegalRequiredErr]⟩
  | inIf =>
    exact ⟨["in subschemas"], by
      simp [placeFlagged, SchemaObject.tryInto, optSubTryInto,
        SubschemaValidation.tryInto, mapVecSchema, listTryInto,
        partitionResults, foldedResult, ctxE, optTryInto, hbase, Err.ctx,
        illegalRequiredErr]⟩
  | inThen =>
    exact ⟨["in subschemas"], by
      simp [placeFlagged, SchemaObject.tryInto, optSubTryInto,
        SubschemaValidation.tryInto, mapVecSchema, listTryInto,
        partitionResults, foldedResult, ctxE, optTryInto, hbase, Err.ctx,
        illegalRequiredErr]⟩
  | inElse =>
    exact ⟨["in subschemas"], by
      simp [placeFlagged, SchemaObject.tryInto, optSubTryInto,
        SubschemaValidation.tryInto, mapVecSchema, listTryInto,
        partitionResults, foldedResult, ctxE, optTryInto, hbase, Err.ctx,
        illegalRequiredErr]⟩
  | inItemsSingle =>
    exact ⟨[], by
      simp [placeFlagged, SchemaObject.tryInto, optSubTryInto,
        optArrTryInto, ArrayValidation.tryInto, optSovTryInto, sovTryInto,
        partitionResults, foldedResult, ctxE, optTryInto, hbase, Err.ctx,
        listTryInto, illegalRequiredErr]⟩
  | inItemsVec =>
    exact ⟨[], by
      simp [placeFlagged, SchemaObject.tryInto, optSubTryInto,
        optArrTryInto, ArrayValidation.tryInto, optSovTryInto, sovTryInto,
        partitionResults, foldedResult, ctxE, optTryInto, hbase, Err.ctx,
        listTryInto, illegalRequiredErr]⟩
  | inAdditionalItems =>
    exact ⟨[], by
      simp [placeFlagged, SchemaObject.tryInto, optSubTryInto,
        optArrTryInto, ArrayValidation.tryInto, optSovTryInto, sovTryInto,
        partitionResults, foldedResult, ctxE, optTryInto, hbase, Err.ctx,
        listTryInto, illegalRequiredErr]⟩
  | inContains =>
    exact ⟨[], by
      simp [placeFlagged, SchemaObject.tryInto, optSubTryInto,
        optArrTryInto, ArrayValidation.tryInto, optSovTryInto, sovTryInto,
        partitionResults, foldedResult, ctxE, optTryInto, hbase, Err.ctx,
        listTryInto, illegalRequiredErr]⟩
  | inAdditionalProperties =>
    exact ⟨[], by
      simp [placeFlagged, SchemaObject.tryInto, optSubTryInto,
        optArrTryInto, optObjTryInto, ObjectValidation.tryInto, stripProps,
        convertPairs, processProps, errsOf, hoistReq, ctxE, optTryInto,
        hbase, Err.ctx, illegalRequiredErr]⟩
  | inPropertyNames =>
    exact ⟨[], by
      simp [placeFlagged, SchemaObject.tryInto, optSubTryInto,
        optArrTryInto, optObjTryInto, ObjectValidation.tryInto, stripProps,
        convertPairs, processProps, errsOf, hoistReq, ctxE, optTryInto,
        hbase, Err.ctx, illegalRequiredErr]⟩
  | inPatternProperties =>
    exact ⟨["in pattern property 'p'"], by
      simp [placeFlagged, SchemaObject.tryInto, optSubTryInto,
        optArrTryInto, optObjTryInto, ObjectValidation.tryInto, stripProps,
        convertPairs, processProps, errsOf, hoistReq, ctxE, optTryInto,
        hbase, Err.ctx, illegalRequiredErr]⟩

/-- Witness for C10 at the `not` position with a `required: false` child. -/
theorem C10_flag_outside_properties_fails_witness :
    oFalse.required.isSome = true ∧
    ∃ ctxs, (placeFlagged .inNot (Schema.obj oFalse)).tryInto =
      .error (ctxs ++ illegalRequiredErr) :=
  ⟨rfl, C10_flag_outside_properties_fails .inNot oFalse rfl⟩
